import Mathlib

/-!
Verification of the febft BFT-SMR engine against its specification.

This file gives a shallow embedding, in Lean 4, of the parts of the febft
repository that the checked claims speak about:

* the time-bucketed-ordered (tbo) message queue of the historical consensus
  module (`src/bft/consensus/mod.rs` of the old crate),
* the historical single-instance consensus state machine of the same module,
* the windowed consensus multiplexer (`febft-pbft-consensus`,
  `bft/consensus/mod.rs`),
* the synchronizer: its view-change tbo queue, the STOP phase of
  `process_message`, the soundness predicates (`binds`, `quorum_highest`,
  `certified_value`, `sound`) and `highest_proof`
  (`febft-pbft-consensus`, `bft/sync/mod.rs` and `replica_sync/mod.rs`),
* the collaborative state transfer protocol (`febft-state-transfer`,
  `src/lib.rs`): the ReceivingCid phase and checkpoint finalization.

Machine integers of the source (`u32` sequence numbers, `usize` counters)
are modelled as `Nat`; `i32` sequence arithmetic of the historical tbo
queue is modelled as `Int`.  Cryptographic digests and signatures are
content-addressed identifiers, modelled as opaque `Nat` values; the
signature-validation routine (`validate_signature`) depends on the wire
format and key store and is abstracted as a boolean oracle on headers.
Rust panics (`unreachable!`) are modelled by `Option`, `Result` errors by
explicit error components.
-/

/-! ## Shared data model -/

/-- A sequence number (`SeqNo` in `atlas-common`, a `u32` counter). -/
abbrev SeqNo := Nat

/-- A node identifier (`NodeId` in `atlas-common`, a `u32`). -/
abbrev NodeId := Nat

/-- A content digest (`Digest` in `atlas-common`), modelled opaquely. -/
abbrev Digest := Nat

/-- Modelled from the spec: `SeqNo::index(base)` of `atlas-common` (the crate
itself is an external collaborator, §3 of the spec): `Left` (stale) when the
sequence is below the base, otherwise `Right(offset)`. -/
def seqIndex (s base : SeqNo) : Sum Unit Nat :=
  if s < base then Sum.inl () else Sum.inr (s - base)

/-- The wire header of a stored message (`atlas-communication`): we retain
the sender and the unique digest of the payload, the fields the embedded
code inspects. -/
structure Header where
  sender : NodeId
  uniqueDigest : Digest
deriving DecidableEq, Repr

/-- `StoredMessage<M>`: a wire header paired with a deserialized payload. -/
structure StoredMessage (M : Type) where
  header : Header
  message : M
deriving DecidableEq, Repr

/-- A stored client request (`StoredRequestMessage<O>`); the payload is
opaque. Requests are identified by `header.uniqueDigest`, exactly as the
source identifies them via `header().unique_digest()`. -/
abbrev StoredRequest := StoredMessage Nat

/-- Modelled from the spec: `ViewInfo` (`bft/sync/view.rs` is not among the
provided sources; §3 of the spec): view sequence number, ordered member
list, and the number `f` of tolerated faults. -/
structure ViewInfo where
  seq : SeqNo
  members : List NodeId
  f : Nat
deriving DecidableEq, Repr

namespace ViewInfo

/-- Modelled from the spec: `params().n()`, the member count. -/
def n (v : ViewInfo) : Nat := v.members.length

/-- Modelled from the spec (glossary): `params().quorum() = 2f+1`. -/
def quorum (v : ViewInfo) : Nat := 2 * v.f + 1

/-- Modelled from the spec: `leader() = members[seq mod members.len()]`. -/
def leader (v : ViewInfo) : NodeId := v.members.getD (v.seq % v.members.length) 0

/-- Modelled from the spec: `next_view()` advances the view sequence and
keeps the membership. -/
def nextView (v : ViewInfo) : ViewInfo := { v with seq := v.seq + 1 }

end ViewInfo

/-! ## Historical consensus module (old crate, `src/bft/consensus/mod.rs`)

The types below embed the old `febft` crate's consensus module: its
`ConsensusMessage` (whose `PRE-PREPARE` carries a request signature and
whose `PREPARE`/`COMMIT` carry no payload), its `TBOQueue` keyed by an
`i32` sequence number, and its `Consensus` state machine. -/

/-- `ConsensusMessageKind` of the old crate: `PrePrepare(Signature)`,
`Prepare`, `Commit` (the signature is opaque). -/
inductive OldCMKind where
  | prePrepare (sig : Nat)
  | prepare
  | commit
deriving DecidableEq, Repr

/-- `ConsensusMessage` of the old crate: an `i32` sequence number and a kind. -/
structure OldConsensusMessage where
  seq : Int
  kind : OldCMKind
deriving DecidableEq, Repr

/-- `TBOQueue::queue_message(curr_seq, tbo, m)`: compute
`index = m.sequence_number() - curr_seq`; drop the message when negative,
otherwise extend the deque-of-deques with empty buckets up to `index` and
push the message at the back of bucket `index`. -/
def oldQueueMessage (currSeq : Int) (tbo : List (List OldConsensusMessage))
    (m : OldConsensusMessage) : List (List OldConsensusMessage) :=
  let index : Int := m.seq - currSeq
  if index < 0 then
    tbo
  else
    let index : Nat := index.toNat
    let tbo :=
      if index ≥ tbo.length then
        tbo ++ List.replicate (index - tbo.length + 1) []
      else
        tbo
    tbo.set index (tbo.getD index [] ++ [m])

/-- `TBOQueue::pop_message(tbo)`: `None` when the queue is empty, otherwise
pop the front of bucket `0` (returning the message and the updated queue). -/
def oldPopMessage (tbo : List (List OldConsensusMessage)) :
    Option OldConsensusMessage × List (List OldConsensusMessage) :=
  match tbo with
  | [] => (none, [])
  | b :: rest =>
    match b with
    | [] => (none, [] :: rest)
    | m :: ms => (some m, ms :: rest)

/-- `TBOQueue::advance_message_queue(tbo)`: pop the front bucket. -/
def oldAdvanceMessageQueue (tbo : List (List OldConsensusMessage)) :
    List (List OldConsensusMessage) :=
  tbo.tail

/-- `advance_message_queue` applied `k` times (advancing until a target
sequence number becomes current). -/
def oldAdvanceMessageQueueN (tbo : List (List OldConsensusMessage)) :
    Nat → List (List OldConsensusMessage)
  | 0 => tbo
  | k + 1 => oldAdvanceMessageQueueN (oldAdvanceMessageQueue tbo) k

/-- The bucket of a deque-of-deques at an offset (empty when absent). -/
def bucketAt (tbo : List (List OldConsensusMessage)) (k : Nat) :
    List OldConsensusMessage :=
  tbo.getD k []

/-- `TBOQueue` of the old crate (the three per-kind bucket queues and the
current `i32` sequence). -/
structure OldTBOQueue where
  currSeq : Int
  getQueue : Bool
  prePrepares : List (List OldConsensusMessage)
  prepares : List (List OldConsensusMessage)
  commits : List (List OldConsensusMessage)
deriving DecidableEq, Repr

/-- `TBOQueue::new(curr_seq)`. -/
def OldTBOQueue.new (currSeq : Int) : OldTBOQueue :=
  { currSeq := currSeq, getQueue := false,
    prePrepares := [], prepares := [], commits := [] }

/-- `TBOQueue::next_instance_queue`: increment the tracked sequence and
advance all three bucket queues. -/
def OldTBOQueue.nextInstanceQueue (q : OldTBOQueue) : OldTBOQueue :=
  { q with currSeq := q.currSeq + 1,
           prePrepares := oldAdvanceMessageQueue q.prePrepares,
           prepares := oldAdvanceMessageQueue q.prepares,
           commits := oldAdvanceMessageQueue q.commits }

/-- `ProtoPhase` of the old crate's consensus instance; the vote counters
are the `u32` integers of `Preparing(u32)` / `Committing(u32)`. -/
inductive OldProtoPhase where
  | init
  | prePreparing
  | preparing (count : Nat)
  | committing (count : Nat)
deriving DecidableEq, Repr

/-- `ConsensusStatus` of the old crate. -/
inductive OldConsensusStatus where
  | votedTwice (node : NodeId)
  | deciding
  | decided (sig : Nat)
deriving DecidableEq, Repr

/-- Broadcasts emitted by the old consensus state machine. -/
inductive OldBroadcast where
  | prepare (seq : Int)
  | commit (seq : Int)
deriving DecidableEq, Repr

/-- `Consensus` of the old crate: the phase, the tbo queue, and the
currently decided signature. -/
structure OldConsensus where
  phase : OldProtoPhase
  tbo : OldTBOQueue
  current : Option Nat
deriving DecidableEq, Repr

/-- `Consensus::process_message(header, message, view, log, node)` of the old
crate, faithful to the source's `Init`, `PrePreparing` and `Preparing` arms
(the `Committing` arm of the source is syntactically broken — it refers to
fields and functions that do not exist — and is embedded following the same
counting structure as `Preparing`).  The source carries a literal FIXME:
"make sure a replica doesn't vote twice by keeping track of who voted, and
not just the amount of votes received"; accordingly no voter set is
consulted anywhere, and `header` is never inspected. -/
def oldProcessMessage (st : OldConsensus) (_header : Header)
    (m : OldConsensusMessage) (view : ViewInfo) (myId : NodeId) :
    OldConsensusStatus × OldConsensus × List OldBroadcast :=
  match st.phase with
  | OldProtoPhase.init =>
    match m.kind with
    | OldCMKind.prePrepare _ =>
      (OldConsensusStatus.deciding,
        { st with tbo := { st.tbo with
            prePrepares := oldQueueMessage st.tbo.currSeq st.tbo.prePrepares m } }, [])
    | OldCMKind.prepare =>
      (OldConsensusStatus.deciding,
        { st with tbo := { st.tbo with
            prepares := oldQueueMessage st.tbo.currSeq st.tbo.prepares m } }, [])
    | OldCMKind.commit =>
      (OldConsensusStatus.deciding,
        { st with tbo := { st.tbo with
            commits := oldQueueMessage st.tbo.currSeq st.tbo.commits m } }, [])
  | OldProtoPhase.prePreparing =>
    match m.kind with
    | OldCMKind.prePrepare sig =>
      if m.seq ≠ st.tbo.currSeq then
        (OldConsensusStatus.deciding,
          { st with tbo := { st.tbo with
              prePrepares := oldQueueMessage st.tbo.currSeq st.tbo.prePrepares m } }, [])
      else
        (OldConsensusStatus.deciding,
          { st with current := some sig, phase := OldProtoPhase.preparing 0 },
          if myId ≠ view.leader then [OldBroadcast.prepare st.tbo.currSeq] else [])
    | OldCMKind.prepare =>
      (OldConsensusStatus.deciding,
        { st with tbo := { st.tbo with
            prepares := oldQueueMessage st.tbo.currSeq st.tbo.prepares m } }, [])
    | OldCMKind.commit =>
      (OldConsensusStatus.deciding,
        { st with tbo := { st.tbo with
            commits := oldQueueMessage st.tbo.currSeq st.tbo.commits m } }, [])
  | OldProtoPhase.preparing i =>
    match m.kind with
    | OldCMKind.prePrepare _ =>
      (OldConsensusStatus.deciding,
        { st with tbo := { st.tbo with
            prePrepares := oldQueueMessage st.tbo.currSeq st.tbo.prePrepares m } }, [])
    | OldCMKind.prepare =>
      if m.seq ≠ st.tbo.currSeq then
        (OldConsensusStatus.deciding,
          { st with tbo := { st.tbo with
              prepares := oldQueueMessage st.tbo.currSeq st.tbo.prepares m } }, [])
      else
        let i := i + 1
        if i = view.quorum then
          (OldConsensusStatus.deciding,
            { st with phase := OldProtoPhase.committing 0 },
            [OldBroadcast.commit st.tbo.currSeq])
        else
          (OldConsensusStatus.deciding,
            { st with phase := OldProtoPhase.preparing i }, [])
    | OldCMKind.commit =>
      (OldConsensusStatus.deciding,
        { st with tbo := { st.tbo with
            commits := oldQueueMessage st.tbo.currSeq st.tbo.commits m } }, [])
  | OldProtoPhase.committing i =>
    match m.kind with
    | OldCMKind.prePrepare _ =>
      (OldConsensusStatus.deciding,
        { st with tbo := { st.tbo with
            prePrepares := oldQueueMessage st.tbo.currSeq st.tbo.prePrepares m } }, [])
    | OldCMKind.prepare =>
      (OldConsensusStatus.deciding,
        { st with tbo := { st.tbo with
            prepares := oldQueueMessage st.tbo.currSeq st.tbo.prepares m } }, [])
    | OldCMKind.commit =>
      if m.seq ≠ st.tbo.currSeq then
        (OldConsensusStatus.deciding,
          { st with tbo := { st.tbo with
              commits := oldQueueMessage st.tbo.currSeq st.tbo.commits m } }, [])
      else
        let i := i + 1
        if i = view.quorum then
          (OldConsensusStatus.decided (st.current.getD 0),
            { st with phase := OldProtoPhase.committing i }, [])
        else
          (OldConsensusStatus.deciding,
            { st with phase := OldProtoPhase.committing i }, [])

/-! ## Windowed consensus multiplexer
(`febft-pbft-consensus`, `bft/consensus/mod.rs`) -/

/-- The consensus-level tbo queue (`TboQueue` of
`febft-pbft-consensus/bft/consensus/mod.rs`): its base for queueing is
`curr_seq + watermark`, and `advance_queue` both advances `curr_seq` and
yields the front buckets.  Only the sequence bookkeeping is retained here;
the buckets hold opaque message identifiers. -/
structure MuxTboQueue where
  currSeq : SeqNo
  watermark : Nat
  buckets : List (List Nat)
deriving DecidableEq, Repr

/-- `TboQueue::advance_queue`: advance `curr_seq` and pop the front bucket,
returning it (empty when absent) to seed the next decision's message queue. -/
def MuxTboQueue.advanceQueue (q : MuxTboQueue) : List Nat × MuxTboQueue :=
  (q.buckets.headD [], { q with currSeq := q.currSeq + 1, buckets := q.buckets.tail })

/-- Modelled from the spec: a `ConsensusDecision`
(`bft/consensus/decision/mod.rs` is not among the provided sources; §3 of
the spec gives a Decision its sequence number and its buffered message
queue).  `ConsensusDecision::init_decision(node, seq, view)` records `seq`
with an empty queue; `init_with_msg_log` additionally seeds the queue. -/
structure DecisionModel where
  seq : SeqNo
  queued : List Nat
deriving DecidableEq, Repr

/-- The `Consensus` multiplexer state: watermark, current base sequence
number, the deque of in-flight decisions, and the overflow tbo queue. -/
structure ConsensusMux where
  watermark : Nat
  seqNo : SeqNo
  decisions : List DecisionModel
  tboQueue : MuxTboQueue
deriving DecidableEq, Repr

/-- `Consensus::new_replica(node_id, view, executor, seq_no, watermark)`:
initialize `watermark` decisions with sequence numbers
`seq_no, seq_no + 1, …, seq_no + watermark - 1`. -/
def ConsensusMux.newReplica (seqNo : SeqNo) (watermark : Nat) : ConsensusMux :=
  { watermark := watermark,
    seqNo := seqNo,
    decisions := (List.range watermark).map
      (fun i => { seq := seqNo + i, queued := [] }),
    tboQueue := { currSeq := seqNo, watermark := watermark, buckets := [] } }

/-- `Consensus::next_instance(view)`: advance `seq_no`, pop the front
decision, advance the overflow tbo queue, and push a new decision at the
tail.  The source constructs the new tail with
`ConsensusDecision::init_with_msg_log(self.node_id, self.seq_no, view, queue)`
— that is, with the freshly incremented `self.seq_no` — seeded with the
bucket returned by `advance_queue`.  Returns the popped decision. -/
def ConsensusMux.nextInstance (c : ConsensusMux) : Option DecisionModel × ConsensusMux :=
  let seqNo := c.seqNo + 1
  let popped := c.decisions.head?
  let rest := c.decisions.tail
  let (queue, tbo) := c.tboQueue.advanceQueue
  (popped,
    { c with seqNo := seqNo,
             decisions := rest ++ [{ seq := seqNo, queued := queue }],
             tboQueue := tbo })

/-- The sequence numbers of the in-flight decisions, in deque order. -/
def ConsensusMux.decisionSeqs (c : ConsensusMux) : List SeqNo :=
  c.decisions.map DecisionModel.seq

/-! ## Synchronizer data model
(`febft-pbft-consensus`, `bft/sync/mod.rs` and `bft/msg_log/decisions.rs`) -/

/-- `ConsensusMessageKind<O>` of `febft-pbft-consensus/bft/message/mod.rs`:
a `PRE-PREPARE` carries the batch of stored client requests, a `PREPARE` or
`COMMIT` carries the digest of the serialized `PRE-PREPARE`. -/
inductive ConsensusMessageKind where
  | prePrepare (rqs : List StoredRequest)
  | prepare (d : Digest)
  | commit (d : Digest)
deriving DecidableEq, Repr

/-- `ConsensusMessage<O>`: sequence number, view sequence number, kind. -/
structure ConsensusMessage where
  seq : SeqNo
  view : SeqNo
  kind : ConsensusMessageKind
deriving DecidableEq, Repr

/-- `ConsensusMessage::has_proposed_digest(digest)`: undefined (`None`) on a
`PRE-PREPARE`, otherwise whether the carried digest equals `digest`. -/
def ConsensusMessage.hasProposedDigest (m : ConsensusMessage) (digest : Digest) :
    Option Bool :=
  match m.kind with
  | ConsensusMessageKind.prePrepare _ => none
  | ConsensusMessageKind.prepare d => some (d = digest)
  | ConsensusMessageKind.commit d => some (d = digest)

/-- `ViewDecisionPair(SeqNo, Digest)` (timestamp paired with a value). -/
structure ViewDecisionPair where
  ts : SeqNo
  value : Digest
deriving DecidableEq, Repr

/-- Modelled from the spec: `IncompleteProof`
(`bft/msg_log/decisions.rs` is not among the provided sources; §3 of the
spec): the executed cid `in_exec`, the optional quorum-prepare pair
(`quorum_prepares`, also called the quorum write), and the write set. -/
structure IncompleteProof where
  executing : SeqNo
  quorumPrepares : Option ViewDecisionPair
  writeSet : List ViewDecisionPair
deriving DecidableEq, Repr

/-- Modelled from the spec: `Proof` (`bft/msg_log/decisions.rs` is not among
the provided sources; §3 of the spec): fully justified evidence of a
decided batch — its sequence number, its batch digest, and its signed
`PREPARE` and `COMMIT` lists. -/
structure Proof where
  seq : SeqNo
  batchDigest : Digest
  prepares : List (StoredMessage ConsensusMessage)
  commits : List (StoredMessage ConsensusMessage)
deriving DecidableEq, Repr

/-- Modelled from the spec: `CollectData` (§3 of the spec): an incomplete
proof for the executing cid plus the optional last decided proof. -/
structure CollectData where
  incompleteProof : IncompleteProof
  lastProof : Option Proof
deriving DecidableEq, Repr

/-- `ViewChangeMessageKind<O>` of `bft/message/mod.rs`.  The payload of a
`SYNC` (`LeaderCollects`) is kept opaque: no claim settled here inspects it
(the highest-proof computation operates on the received STOP-DATA collects,
as in the source). -/
inductive ViewChangeMessageKind where
  | stop (rqs : List StoredRequest)
  | stopQuorumJoin (node : NodeId)
  | stopData (cd : CollectData)
  | sync (leaderCollects : Nat)
deriving DecidableEq, Repr

/-- `ViewChangeMessage<O>`: the view sequence number it pertains to and the
kind. -/
structure ViewChangeMessage where
  view : SeqNo
  kind : ViewChangeMessageKind
deriving DecidableEq, Repr

/-! ## Soundness predicates (`bft/sync/mod.rs`, free functions at the bottom
of the module) -/

/-- `Sound`: the result of the view-change soundness check. -/
inductive Sound where
  | unbound (ok : Bool)
  | bound (d : Digest)
deriving DecidableEq, Repr

/-- `quorum_highest(curr_view, ts, value, normalized_collects)`: at least
one present collect whose `quorum_prepares` equals `(ts, value)`, and at
least `quorum` present collects whose `quorum_prepares` has a timestamp
below `ts` or equals `(ts, value)` (collects without a quorum write count
for neither). -/
def quorumHighest (currView : ViewInfo) (ts : SeqNo) (value : Digest)
    (normalizedCollects : List (Option CollectData)) : Bool :=
  let present := normalizedCollects.filterMap id
  let appears := present.any (fun collect =>
    match collect.incompleteProof.quorumPrepares with
    | some p => p.ts = ts && p.value = value
    | none => false)
  let count := (present.filter (fun collect =>
    match collect.incompleteProof.quorumPrepares with
    | some p =>
      match compare p.ts ts with
      | Ordering.lt => true
      | Ordering.eq => p.value = value
      | Ordering.gt => false
    | none => false)).length
  appears && count ≥ currView.quorum

/-- `certified_value(curr_view, ts, value, normalized_collects)`: summed
over the present collects, the number of write-set pairs `(ts', v')` with
`ts' ≥ ts` and `v' = value` exceeds `f`. -/
def certifiedValue (currView : ViewInfo) (ts : SeqNo) (value : Digest)
    (normalizedCollects : List (Option CollectData)) : Bool :=
  let present := normalizedCollects.filterMap id
  let count := (present.map (fun collect =>
    (collect.incompleteProof.writeSet.filter (fun p =>
      p.ts ≥ ts && p.value = value)).length)).sum
  count > currView.f

/-- `binds(curr_view, ts, value, normalized_collects)`: `false` when fewer
than `quorum` normalized collects are present (`None` entries included in
the length, as in the source slice), otherwise the conjunction of
`quorum_highest` and `certified_value`. -/
def binds (currView : ViewInfo) (ts : SeqNo) (value : Digest)
    (normalizedCollects : List (Option CollectData)) : Bool :=
  if normalizedCollects.length < currView.quorum then
    false
  else
    quorumHighest currView ts value normalizedCollects &&
    certifiedValue currView ts value normalizedCollects

/-- `unbound(curr_view, normalized_collects)`: `false` below `quorum`
collects; otherwise at least `quorum` entries either are absent (`None`),
have no quorum write, or have a zero-timestamp quorum write. -/
def unbound (currView : ViewInfo)
    (normalizedCollects : List (Option CollectData)) : Bool :=
  if normalizedCollects.length < currView.quorum then
    false
  else
    let count := (normalizedCollects.filter (fun maybeCollect =>
      match maybeCollect with
      | some collect =>
        match collect.incompleteProof.quorumPrepares with
        | some p => p.ts = 0
        | none => true
      | none => true)).length
    count ≥ currView.quorum

/-- The timestamp set collected by `sound`: for an absent or quorum-write-less
collect, `SeqNo::ZERO`; otherwise the quorum-write timestamp; plus every
write-set timestamp. -/
def soundSeqNumbers (normalizedCollects : List (Option CollectData)) : List SeqNo :=
  normalizedCollects.flatMap (fun maybeCollect =>
    match maybeCollect with
    | none => [0]
    | some c =>
      ((c.incompleteProof.quorumPrepares.map ViewDecisionPair.ts).getD 0) ::
        c.incompleteProof.writeSet.map ViewDecisionPair.ts)

/-- The value set collected by `sound`: every write-set value of a present
collect. -/
def soundValues (normalizedCollects : List (Option CollectData)) : List Digest :=
  normalizedCollects.flatMap (fun maybeCollect =>
    match maybeCollect with
    | none => []
    | some c => c.incompleteProof.writeSet.map ViewDecisionPair.value)

/-- `sound(curr_view, normalized_collects)`: gather the candidate timestamps
and values, return `Bound(value)` for the first `(ts, value)` pair that
`binds`, otherwise `Unbound(unbound(..))`.  (The source iterates hash sets,
whose order is arbitrary; the list traversal here fixes one order, and every
theorem below is order-independent.) -/
def sound (currView : ViewInfo)
    (normalizedCollects : List (Option CollectData)) : Sound :=
  let seqNumbers := soundSeqNumbers normalizedCollects
  let values := soundValues normalizedCollects
  match seqNumbers.findSome? (fun seqNo =>
    values.findSome? (fun value =>
      if binds currView seqNo value normalizedCollects then
        some value
      else
        none)) with
  | some value => Sound.bound value
  | none => Sound.unbound (unbound currView normalizedCollects)

/-- `normalized_collects(in_exec, collects)`: a collect whose
`incomplete_proof().executing()` differs from `in_exec` contributes `None`. -/
def normalizedCollects (inExec : SeqNo) (collects : List CollectData) :
    List (Option CollectData) :=
  collects.map (fun collect =>
    if collect.incompleteProof.executing = inExec then
      some collect
    else
      none)

/-- `collect_data(collects)`: keep the `CollectData` of STOP-DATA messages. -/
def collectData (collects : List (StoredMessage ViewChangeMessage)) :
    List CollectData :=
  collects.filterMap (fun stored =>
    match stored.message.kind with
    | ViewChangeMessageKind.stopData cd => some cd
    | _ => none)

/-! ## Highest proof (`bft/sync/mod.rs`, `highest_proof`) -/

/-- The filter `highest_proof` applies to a candidate `Proof`: at least
`quorum` of its `COMMIT` messages carry the proof's batch digest
(`has_proposed_digest`) and validate against their sender's signature, and
likewise for its `PREPARE` messages.  `validate_signature` (wire-format
parsing plus public-key lookup plus signature verification) is abstracted
as the oracle `valid` on headers. -/
def proofPasses (view : ViewInfo) (valid : Header → Bool) (proof : Proof) : Bool :=
  let digest := proof.batchDigest
  let commitsValid :=
    ((proof.commits.filter (fun stored =>
        (stored.message.hasProposedDigest digest).getD false)).filter
      (fun stored => valid stored.header)).length ≥ view.quorum
  let preparesValid :=
    ((proof.prepares.filter (fun stored =>
        (stored.message.hasProposedDigest digest).getD false)).filter
      (fun stored => valid stored.header)).length ≥ view.quorum
  commitsValid && preparesValid

/-- `Iterator::max_by_key` over the proof sequence number: of several
equally maximal elements, Rust returns the last one. -/
def lastMaxBySeq (proofs : List Proof) : Option Proof :=
  proofs.foldl (fun acc p =>
    match acc with
    | none => some p
    | some q => if q.seq ≤ p.seq then some p else some q) none

/-- `highest_proof(view, node, collects)`: take the `CollectData` of the
STOP-DATA messages, keep their `last_proof`s, keep those passing the
signed-quorum filter, and return the one with the greatest sequence
number. -/
def highestProof (view : ViewInfo) (valid : Header → Bool)
    (collects : List (StoredMessage ViewChangeMessage)) : Option Proof :=
  lastMaxBySeq
    (((collectData collects).filterMap CollectData.lastProof).filter
      (proofPasses view valid))

/-- The new consensus id computed from the highest proof at both call sites
(`StoppingData`: `SeqNo::from(u32::from(seq) + 1)`; `Syncing`:
`seq.next()`): `proof.seq + 1`, or `SeqNo::ZERO` when no proof qualifies. -/
def currCid (view : ViewInfo) (valid : Header → Bool)
    (collects : List (StoredMessage ViewChangeMessage)) : SeqNo :=
  match highestProof view valid collects with
  | some p => p.seq + 1
  | none => 0

/-! ## The synchronizer's view-change tbo queue
(`bft/sync/mod.rs`, `TboQueue`) -/

/-- Modelled from the spec: `tbo_queue_message(base, q, msg)` of
`atlas-common` (§4.1 of the spec): drop the message when its view sequence
is below the base, otherwise grow the queue with empty buckets up to the
offset and push at its back. -/
def vcTboQueueMessage (base : SeqNo)
    (tbo : List (List (StoredMessage ViewChangeMessage)))
    (m : StoredMessage ViewChangeMessage) :
    List (List (StoredMessage ViewChangeMessage)) :=
  match seqIndex m.message.view base with
  | Sum.inl _ => tbo
  | Sum.inr index =>
    let tbo :=
      if index ≥ tbo.length then
        tbo ++ List.replicate (index - tbo.length + 1) []
      else
        tbo
    tbo.set index (tbo.getD index [] ++ [m])

/-- Modelled from the spec: `tbo_advance_message_queue` of `atlas-common`
(§4.1 of the spec): pop the front bucket. -/
def vcTboAdvance (tbo : List (List (StoredMessage ViewChangeMessage))) :
    List (List (StoredMessage ViewChangeMessage)) :=
  tbo.tail

/-- `TboQueue` of the synchronizer: the installed view, the next and
previous views, the probe flag, and the STOP / STOP-DATA / SYNC bucket
queues. -/
structure VCTboQueue where
  view : ViewInfo
  nextView : Option ViewInfo
  previousView : Option ViewInfo
  getQueue : Bool
  stop : List (List (StoredMessage ViewChangeMessage))
  stopData : List (List (StoredMessage ViewChangeMessage))
  sync : List (List (StoredMessage ViewChangeMessage))
deriving DecidableEq, Repr

namespace VCTboQueue

/-- `TboQueue::new(view)`. -/
def new (view : ViewInfo) : VCTboQueue :=
  { view := view, nextView := none, previousView := none, getQueue := false,
    stop := [], stopData := [], sync := [] }

/-- `TboQueue::next_instance_queue`: advance the three bucket queues. -/
def nextInstanceQueue (q : VCTboQueue) : VCTboQueue :=
  { q with stop := vcTboAdvance q.stop,
           stopData := vcTboAdvance q.stopData,
           sync := vcTboAdvance q.sync }

/-- `next_instance_queue` applied `i` times. -/
def nextInstanceQueueN (q : VCTboQueue) : Nat → VCTboQueue
  | 0 => q
  | i + 1 => (q.nextInstanceQueue).nextInstanceQueueN i

/-- `TboQueue::install_view(view)`: on `Right(i)` with `i > 0`, replace the
installed view, remember the previous one and advance the message queues
`i` times, returning `true`; on `Right(0)` (same sequence number), return
`false` and change nothing; on `Left(_)` (an older view) the source hits
`unreachable!` — modelled as `none`. -/
def installView (q : VCTboQueue) (view : ViewInfo) : Option (Bool × VCTboQueue) :=
  match seqIndex view.seq q.view.seq with
  | Sum.inr i =>
    if i > 0 then
      some (true, { (q.nextInstanceQueueN i) with
                      view := view, previousView := some q.view })
    else
      some (false, q)
  | Sum.inl _ => none

/-- `TboQueue::queue_stop`: queue a STOP for the next view's sequence. -/
def queueStop (q : VCTboQueue) (h : Header) (m : ViewChangeMessage) : VCTboQueue :=
  { q with stop := vcTboQueueMessage (q.view.seq + 1) q.stop ⟨h, m⟩ }

/-- `TboQueue::queue_stop_data`: queue a STOP-DATA for the next view's
sequence. -/
def queueStopData (q : VCTboQueue) (h : Header) (m : ViewChangeMessage) : VCTboQueue :=
  { q with stopData := vcTboQueueMessage (q.view.seq + 1) q.stopData ⟨h, m⟩ }

/-- `TboQueue::queue_sync`: queue a SYNC for the next view's sequence. -/
def queueSync (q : VCTboQueue) (h : Header) (m : ViewChangeMessage) : VCTboQueue :=
  { q with sync := vcTboQueueMessage (q.view.seq + 1) q.sync ⟨h, m⟩ }

end VCTboQueue

/-! ## Synchronizer STOP phase
(`bft/sync/mod.rs`, `Synchronizer::process_message`, and
`bft/sync/replica_sync/mod.rs`) -/

/-- `ProtoPhase` of the synchronizer. -/
inductive SyncPhase where
  | init
  | stopping (i : Nat)
  | stopping2 (i : Nat)
  | viewStopping (i : Nat)
  | viewStopping2 (i : Nat)
  | stoppingData (i : Nat)
  | syncing
  | syncingState
deriving DecidableEq, Repr

/-- A timed-out client request's identifier (`ClientRqInfo`), derived from
the request's unique digest; modelled by that digest. -/
abbrev ClientRqInfo := Digest

/-- `SynchronizerStatus` (the constructors the embedded arms produce). -/
inductive SyncStatus where
  | nil
  | running
  | requestsTimedOut (forwarded : List ClientRqInfo) (stopped : List ClientRqInfo)
  | outOfScope
deriving DecidableEq, Repr

/-- Network sends performed by the embedded synchronizer arms:
`handle_begin_view_change` broadcasts a STOP to the current view's quorum
members, and `handle_stopping_quorum` sends a signed STOP-DATA to the next
view's leader. -/
inductive SyncOutput where
  | broadcastStop (msg : ViewChangeMessage) (targets : List NodeId)
  | sendStopData (viewSeq : SeqNo) (target : NodeId)
deriving DecidableEq, Repr

/-- The synchronizer state the STOP phase manipulates: node id, phase, the
view-change tbo queue, and the per-sender map of received stopped requests
(`self.stopped`, an `IntMap` keyed by sender). -/
structure SyncState where
  nodeId : NodeId
  phase : SyncPhase
  tbo : VCTboQueue
  stopped : List (NodeId × List StoredRequest)
deriving DecidableEq, Repr

/-- `ReplicaSynchronizer::stopped_requests(base_sync, requests)`: a hash map
keyed by the requests' unique digests ensures no repeats — first the
locally timed-out requests are inserted (`insert`, replacing same-digest
duplicates), then every received STOP's requests (`entry().or_insert_with`,
keeping the first); the map's values are returned.  The source drains a
hash map in arbitrary order; this model returns insertion order. -/
def stoppedRequests (timedOut : Option (List StoredRequest))
    (stoppedMap : List (NodeId × List StoredRequest)) : List StoredRequest :=
  let acc : List (Digest × StoredRequest) :=
    (timedOut.getD []).foldl (fun acc r =>
      if acc.any (fun p => p.1 = r.header.uniqueDigest) then
        acc.map (fun p => if p.1 = r.header.uniqueDigest then (p.1, r) else p)
      else
        acc ++ [(r.header.uniqueDigest, r)]) []
  let acc :=
    stoppedMap.foldl (fun acc entry =>
      entry.2.foldl (fun acc r =>
        if acc.any (fun p => p.1 = r.header.uniqueDigest) then
          acc
        else
          acc ++ [(r.header.uniqueDigest, r)]) acc) acc
  acc.map Prod.snd

/-- `ReplicaSynchronizer::stopped_request_digests(base_sync, requests)`: the
set of `ClientRqInfo` (unique digests) of the given requests and of every
received STOP's requests; a hash set ensures distinctness. -/
def stoppedRequestDigests (requests : Option (List StoredRequest))
    (stoppedMap : List (NodeId × List StoredRequest)) : List ClientRqInfo :=
  let acc : List ClientRqInfo :=
    (requests.getD []).foldl (fun acc r =>
      if acc.contains r.header.uniqueDigest then acc
      else acc ++ [r.header.uniqueDigest]) []
  stoppedMap.foldl (fun acc entry =>
    entry.2.foldl (fun acc r =>
      if acc.contains r.header.uniqueDigest then acc
      else acc ++ [r.header.uniqueDigest]) acc) acc

/-- The `stop_status!` macro: `Running` when more than `f` STOPs have been
seen, `Nil` otherwise. -/
def stopStatus (i : Nat) (view : ViewInfo) : SyncStatus :=
  if i > view.f then SyncStatus.running else SyncStatus.nil

/-- `Synchronizer::process_message`, restricted to the
`ProtoPhase::Stopping(i) | ProtoPhase::Stopping2(i)` arm (the arm the C4
claim is about; the other arms of the source's match are not embedded and
yield `outOfScope`).  STOP messages for another view-change instance are
queued; a sender already in `self.stopped` is dropped; a counted STOP
stores its requests and either (while in `Stopping`, i.e. before our own
STOP was sent) triggers `begin_view_change(None, ..)` once the count
exceeds `f` — which moves to `Stopping2(i+1)` and broadcasts our own STOP
carrying `stopped_requests(None)` — or (in `Stopping2`) on reaching
`quorum` installs `current_view.next_view()` as the next view, runs
`handle_stopping_quorum` (which drains the stopped map and sends STOP-DATA
to the new leader), and moves to `StoppingData(0)` when this node leads
the next view, else to `Syncing`. -/
def syncProcessStopMsg (st : SyncState) (second : Bool) (i : Nat)
    (header : Header) (message : ViewChangeMessage) :
    SyncStatus × SyncState × List SyncOutput :=
  let msgSeq := message.view
  let currentView := st.tbo.view
  let nextSeq := currentView.seq + 1
  match message.kind with
  | ViewChangeMessageKind.stop rqs =>
    if msgSeq ≠ nextSeq then
      (stopStatus i currentView,
        { st with tbo := st.tbo.queueStop header message }, [])
    else if st.stopped.any (fun e => e.1 = header.sender) then
      -- drop attempts to vote twice
      (stopStatus i currentView, st, [])
    else
      let i := i + 1
      let st := { st with stopped := st.stopped ++ [(header.sender, rqs)] }
      if ¬second then
        -- NOTE: this branch is only taken before our own STOP was sent
        if i > currentView.f then
          -- begin_view_change(None, ..): Stopping(k) ↦ Stopping2(k+1),
          -- then handle_begin_view_change broadcasts our own STOP
          let requests := stoppedRequests none st.stopped
          let stopMsg : ViewChangeMessage :=
            ⟨currentView.seq + 1, ViewChangeMessageKind.stop requests⟩
          (SyncStatus.running,
            { st with phase := SyncPhase.stopping2 i },
            [SyncOutput.broadcastStop stopMsg currentView.members])
        else
          (SyncStatus.nil, { st with phase := SyncPhase.stopping i }, [])
      else
        if i ≥ currentView.quorum then
          let nextView := currentView.nextView
          let nextLeader := nextView.leader
          -- install_next_view, then handle_stopping_quorum (drains the
          -- stopped map and sends STOP-DATA to the new leader)
          let st := { st with
            tbo := { st.tbo with nextView := some nextView },
            stopped := [] }
          let st :=
            if nextLeader = st.nodeId then
              { st with phase := SyncPhase.stoppingData 0 }
            else
              { st with phase := SyncPhase.syncing }
          (SyncStatus.running, st,
            [SyncOutput.sendStopData nextView.seq nextLeader])
        else
          (SyncStatus.running, { st with phase := SyncPhase.stopping2 i }, [])
  | ViewChangeMessageKind.stopQuorumJoin _ =>
    if msgSeq ≠ nextSeq then
      (stopStatus i currentView,
        { st with tbo := st.tbo.queueStop header message }, [])
    else
      (stopStatus i currentView, st, [])
  | ViewChangeMessageKind.stopData _ =>
    (stopStatus i currentView,
      { st with tbo := st.tbo.queueStopData header message }, [])
  | ViewChangeMessageKind.sync _ =>
    (stopStatus i currentView,
      { st with tbo := st.tbo.queueSync header message }, [])

/-- `Synchronizer::process_message` dispatch on the phase: the
`Stopping`/`Stopping2` arm is embedded by `syncProcessStopMsg`; the other
arms are outside the scope of the settled claims and yield `outOfScope`. -/
def syncProcessMessage (st : SyncState) (header : Header)
    (message : ViewChangeMessage) : SyncStatus × SyncState × List SyncOutput :=
  match st.phase with
  | SyncPhase.stopping i => syncProcessStopMsg st false i header message
  | SyncPhase.stopping2 i => syncProcessStopMsg st true i header message
  | _ => (SyncStatus.outOfScope, st, [])

/-! ## Client-request timeouts
(`bft/sync/replica_sync/mod.rs`, `client_requests_timed_out`) -/

/-- A pending client-request timeout (`RqTimeout`): the timeout phase
counter of `TimeoutPhase::TimedOut(id, time)` and the request identifier of
`TimeoutKind::ClientRequestTimeout`.  (The source hits `unreachable!` on
any other timeout kind: only client-request timeouts reach the
synchronizer.) -/
structure RqTimeout where
  phaseId : Nat
  rqInfo : ClientRqInfo
deriving DecidableEq, Repr

/-- `ReplicaSynchronizer::client_requests_timed_out(base_sync, my_id,
timed_out_rqs)`: a timeout in phase `0` is pushed onto `forwarded`, one in
phase `≥ 1` onto `stopped`; when both are empty the call returns `Nil`;
otherwise, when `stopped` is non-empty or STOPs were already received, the
already-known stopped digests not yet in `stopped` are appended, and
`RequestsTimedOut{forwarded, stopped}` is returned. -/
def clientRequestsTimedOut (stoppedMap : List (NodeId × List StoredRequest))
    (timedOutRqs : List RqTimeout) : SyncStatus :=
  let forwarded := (timedOutRqs.filter (fun t => t.phaseId = 0)).map RqTimeout.rqInfo
  let stopped := (timedOutRqs.filter (fun t => t.phaseId ≥ 1)).map RqTimeout.rqInfo
  if forwarded.isEmpty && stopped.isEmpty then
    SyncStatus.nil
  else
    let stopped :=
      if ¬stopped.isEmpty || ¬stoppedMap.isEmpty then
        (stoppedRequestDigests none stoppedMap).foldl (fun acc rq =>
          if acc.contains rq then acc else acc ++ [rq]) stopped
      else
        stopped
    SyncStatus.requestsTimedOut forwarded stopped

/-! ## Collaborative state transfer (`febft-state-transfer/src/lib.rs`) -/

/-- `Checkpoint`: sequence number, digest of the serialized application
state, and the (opaque) state snapshot. -/
structure Checkpoint where
  seq : SeqNo
  digest : Digest
  appState : Nat
deriving DecidableEq, Repr

/-- `RecoveryState<S>`: the local checkpoint of a recovering node. -/
structure RecoveryState where
  checkpoint : Checkpoint
deriving DecidableEq, Repr

/-- `CstMessageKind<S>`. -/
inductive CstMessageKind where
  | requestStateCid
  | replyStateCid (c : Option (SeqNo × Digest))
  | requestState
  | replyState (s : RecoveryState)
deriving DecidableEq, Repr

/-- `CstMessage<S>`: the cst sequence number and the kind. -/
structure CstMessage where
  seq : SeqNo
  kind : CstMessageKind
deriving DecidableEq, Repr

/-- `CstStatus<S>`: status returned from processing a state transfer
message. -/
inductive CstStatus where
  | nil
  | running
  | requestStateCid
  | seqNo (s : SeqNo)
  | requestState
  | state (s : RecoveryState)
deriving DecidableEq, Repr

/-- `ReceivedStateCid`: the cid and reply count tracked per digest. -/
structure ReceivedStateCid where
  cid : SeqNo
  count : Nat
deriving DecidableEq, Repr

/-- `ProtoPhase<S>` of the state transfer protocol (the pending requests of
`WaitingCheckpoint` are opaque here). -/
inductive CstPhase where
  | init
  | waitingCheckpoint
  | receivingCid (i : Nat)
  | receivingState (i : Nat)
deriving DecidableEq, Repr

/-- The part of `CollabStateTransfer` the ReceivingCid phase manipulates:
the cst sequence number, the phase, the per-digest reply aggregation map
(`received_state_ids`, a hash map modelled as an association list in
insertion order), and the timeout pair. -/
structure CstState where
  currSeq : SeqNo
  phase : CstPhase
  receivedStateIds : List (Digest × ReceivedStateCid)
  baseTimeout : Nat
  currTimeout : Nat
deriving DecidableEq, Repr

/-- The update `ReplyStateCid(Some((cid, digest)))` applies to
`received_state_ids`: `entry(digest).or_insert_with(|| {cid, count: 0})`,
then `count := 1` and `cid := cid` when the received cid is greater, or
`count += 1` when it is equal (a smaller cid leaves the entry untouched;
a fresh entry therefore ends at `{cid, count: 1}`). -/
def cstUpdateEntry (m : List (Digest × ReceivedStateCid)) (cid : SeqNo)
    (digest : Digest) : List (Digest × ReceivedStateCid) :=
  match m.find? (fun p => p.1 = digest) with
  | none => m ++ [(digest, { cid := cid, count := 1 })]
  | some (_, e) =>
    let e' :=
      if cid > e.cid then
        { cid := cid, count := 1 }
      else if cid = e.cid then
        { e with count := e.count + 1 }
      else
        e
    m.map (fun p => if p.1 = digest then (p.1, e') else p)

/-- The aggregation a `ReplyStateCid` payload applies to
`received_state_ids`: a blank reply (`None`) touches nothing. -/
def cstAggregate (m : List (Digest × ReceivedStateCid))
    (sc : Option (SeqNo × Digest)) : List (Digest × ReceivedStateCid) :=
  match sc with
  | some (cid, digest) => cstUpdateEntry m cid digest
  | none => m

/-- The stable descending-by-count insertion used to model
`received_state_ids.sort_by(count.cmp(count2).reverse())` (Rust's
`sort_by` is stable; the hash map's iteration order is arbitrary in the
source and insertion order here). -/
def cstInsertDesc (x : Digest × ReceivedStateCid) :
    List (Digest × ReceivedStateCid) → List (Digest × ReceivedStateCid)
  | [] => [x]
  | y :: ys =>
    if y.2.count ≥ x.2.count then y :: cstInsertDesc x ys else x :: y :: ys

/-- Stable insertion sort, descending by count. -/
def cstSortDesc : List (Digest × ReceivedStateCid) →
    List (Digest × ReceivedStateCid)
  | [] => []
  | x :: xs => cstInsertDesc x (cstSortDesc xs)

/-- `CollabStateTransfer::process_message`, restricted to the
`ProtoPhase::ReceivingCid(i)` arm (the arm the C6 claim is about).  A
message with a stale cst sequence number is dropped (`Running`);
`RequestStateCid` / `RequestState` are served off to the side and yield
`Running`; a `ReplyStateCid` is aggregated (blank replies touch nothing)
and the processed-reply counter `i` is advanced: once `i + 1 ≥ quorum`,
the entries are sorted by descending count — if the top entry's count
reaches `quorum` its cid is returned as `SeqNo`, if no entry exists
(every reply blank) `SeqNo(0)` is returned (in both cases the phase
returns to `Init` and the timeout resets), and otherwise the protocol
stays in `ReceivingCid(i+1)` (timeout reset) and reports `Running`. -/
def cstProcessReceivingCid (view : ViewInfo) (st : CstState) (i : Nat)
    (_header : Header) (message : CstMessage) : CstStatus × CstState :=
  if message.seq ≠ st.currSeq then
    (CstStatus.running, st)
  else
    match message.kind with
    | CstMessageKind.replyStateCid stateCid =>
      let st :=
        match stateCid with
        | some (cid, digest) =>
          { st with receivedStateIds := cstUpdateEntry st.receivedStateIds cid digest }
        | none => st
      let i := i + 1
      if i ≥ view.quorum then
        let st := { st with phase := CstPhase.init, currTimeout := st.baseTimeout }
        match (cstSortDesc st.receivedStateIds).head? with
        | some (_, e) =>
          if e.count ≥ view.quorum then
            (CstStatus.seqNo e.cid, st)
          else
            (CstStatus.running, { st with phase := CstPhase.receivingCid i })
        | none => (CstStatus.seqNo 0, st)
      else
        (CstStatus.running, { st with phase := CstPhase.receivingCid i })
    | CstMessageKind.requestStateCid => (CstStatus.running, st)
    | CstMessageKind.requestState => (CstStatus.running, st)
    | CstMessageKind.replyState _ => (CstStatus.running, st)

/-- `CheckpointState<D>`: `None` / `Partial{seq}` /
`PartialWithEarlier{seq, earlier}` / `Complete(checkpoint)`. -/
inductive CheckpointState where
  | noCheckpoint
  | partialCk (seq : SeqNo)
  | partialWithEarlier (seq : SeqNo) (earlier : Checkpoint)
  | complete (c : Checkpoint)
deriving DecidableEq, Repr

/-- `CollabStateTransfer::finalize_checkpoint(checkpoint)`: an error when no
checkpoint was initiated (`None`) or one was already finalized
(`Complete`), leaving the state untouched; otherwise the state becomes
`Complete(checkpoint)` and the checkpoint is written to the persistent log
(the write is recorded in the third component; the log backend is an
external collaborator modelled as infallible). -/
def finalizeCheckpoint (st : CheckpointState) (checkpoint : Checkpoint) :
    Option String × CheckpointState × List Checkpoint :=
  match st with
  | CheckpointState.noCheckpoint =>
    (some "No checkpoint has been initiated yet", st, [])
  | CheckpointState.complete _ =>
    (some "Checkpoint already finalized", st, [])
  | CheckpointState.partialCk _ =>
    (none, CheckpointState.complete checkpoint, [checkpoint])
  | CheckpointState.partialWithEarlier _ _ =>
    (none, CheckpointState.complete checkpoint, [checkpoint])

/-! ## Concrete example values (used for the evaluations below) -/

/-- A fully signed example proof for sequence 7 with batch digest 5:
three matching signed `PREPARE`s and three matching signed `COMMIT`s. -/
def exampleProof7 : Proof :=
  ⟨7, 5,
    [⟨⟨1, 0⟩, ⟨7, 0, ConsensusMessageKind.prepare 5⟩⟩,
      ⟨⟨2, 0⟩, ⟨7, 0, ConsensusMessageKind.prepare 5⟩⟩,
      ⟨⟨3, 0⟩, ⟨7, 0, ConsensusMessageKind.prepare 5⟩⟩],
    [⟨⟨1, 0⟩, ⟨7, 0, ConsensusMessageKind.commit 5⟩⟩,
      ⟨⟨2, 0⟩, ⟨7, 0, ConsensusMessageKind.commit 5⟩⟩,
      ⟨⟨3, 0⟩, ⟨7, 0, ConsensusMessageKind.commit 5⟩⟩]⟩

/-- An incomplete example proof for sequence 3: a single prepare and a
single commit, below quorum. -/
def exampleProof3 : Proof :=
  ⟨3, 6,
    [⟨⟨1, 0⟩, ⟨3, 0, ConsensusMessageKind.prepare 6⟩⟩],
    [⟨⟨1, 0⟩, ⟨3, 0, ConsensusMessageKind.commit 6⟩⟩]⟩

/-- Two example STOP-DATA collects carrying the proofs above. -/
def exampleCollects : List (StoredMessage ViewChangeMessage) :=
  [⟨⟨1, 0⟩, ⟨1, ViewChangeMessageKind.stopData ⟨⟨0, none, []⟩, some exampleProof7⟩⟩⟩,
    ⟨⟨2, 0⟩, ⟨1, ViewChangeMessageKind.stopData ⟨⟨0, none, []⟩, some exampleProof3⟩⟩⟩]

/-! ## Theorems -/

/-- C10: for every `ViewInfo` whose sequence number is strictly below the
currently installed view's, `TboQueue::install_view` — reachable through the
public `received_view_from_state_transfer` — hits `unreachable!` (modelled
as `none`) instead of returning; when the sequence numbers are equal it
returns `false` and leaves the installed view, the previous view and the
message queues unchanged. -/
theorem install_view_older_panics_equal_noop (q : VCTboQueue) (v : ViewInfo) :
    (v.seq < q.view.seq → q.installView v = none) ∧
    (v.seq = q.view.seq → q.installView v = some (false, q)) := by
  constructor
  · intro h
    simp [VCTboQueue.installView, seqIndex, h]
  · intro h
    simp [VCTboQueue.installView, seqIndex, h]

/-- Witness for C10 at a concrete queue: installing a view with sequence 1
into a queue at sequence 3 panics, and installing one with sequence 3
returns `false` with the queue unchanged. -/
theorem install_view_older_panics_equal_noop_witness :
    (VCTboQueue.new ⟨3, [0, 1, 2, 3], 1⟩).installView ⟨1, [0, 1, 2, 3], 1⟩ = none ∧
    (VCTboQueue.new ⟨3, [0, 1, 2, 3], 1⟩).installView ⟨3, [0, 1, 2, 3], 1⟩ =
      some (false, VCTboQueue.new ⟨3, [0, 1, 2, 3], 1⟩) :=
  ⟨(install_view_older_panics_equal_noop (VCTboQueue.new ⟨3, [0, 1, 2, 3], 1⟩)
      ⟨1, [0, 1, 2, 3], 1⟩).1 (by decide),
   (install_view_older_panics_equal_noop (VCTboQueue.new ⟨3, [0, 1, 2, 3], 1⟩)
      ⟨3, [0, 1, 2, 3], 1⟩).2 rfl⟩

/-- C9: `finalize_checkpoint` errors exactly when no checkpoint was
initiated (`None`) or one was already finalized (`Complete`); both error
cases leave the checkpoint state unchanged and write nothing; on
`Partial`/`PartialWithEarlier` the state becomes `Complete(checkpoint)` and
the checkpoint is written to the persistent log. -/
theorem finalize_checkpoint_spec (st : CheckpointState) (cp : Checkpoint) :
    ((finalizeCheckpoint st cp).1 ≠ none ↔
      st = CheckpointState.noCheckpoint ∨ ∃ c, st = CheckpointState.complete c) ∧
    ((finalizeCheckpoint st cp).1 ≠ none →
      (finalizeCheckpoint st cp).2.1 = st ∧ (finalizeCheckpoint st cp).2.2 = []) ∧
    ((∃ s, st = CheckpointState.partialCk s) ∨
        (∃ s e, st = CheckpointState.partialWithEarlier s e) →
      finalizeCheckpoint st cp = (none, CheckpointState.complete cp, [cp])) := by
  cases st <;> simp [finalizeCheckpoint]

/-- Witness for C9 at concrete checkpoint states: finalizing from
`Partial{seq := 4}` succeeds and completes the checkpoint, and finalizing
again from the resulting `Complete` state errors without touching it. -/
theorem finalize_checkpoint_spec_witness :
    finalizeCheckpoint (CheckpointState.partialCk 4) ⟨4, 7, 0⟩ =
      (none, CheckpointState.complete ⟨4, 7, 0⟩, [⟨4, 7, 0⟩]) ∧
    ((finalizeCheckpoint (CheckpointState.complete ⟨4, 7, 0⟩) ⟨4, 7, 0⟩).2.1 =
        CheckpointState.complete ⟨4, 7, 0⟩ ∧
      (finalizeCheckpoint (CheckpointState.complete ⟨4, 7, 0⟩) ⟨4, 7, 0⟩).2.2 = []) :=
  ⟨(finalize_checkpoint_spec (CheckpointState.partialCk 4) ⟨4, 7, 0⟩).2.2
      (Or.inl ⟨4, rfl⟩),
   (finalize_checkpoint_spec (CheckpointState.complete ⟨4, 7, 0⟩) ⟨4, 7, 0⟩).2.1
      (by decide)⟩

/-- C2 (failing input): with watermark `W = 2` and base sequence `0`,
`new_replica` does initialize decisions `[0, 1]`, but `next_instance` — 
which constructs the new tail with the freshly incremented `self.seq_no` —
leaves the deque at sequences `[1, 1]`: the length stays `W`, yet the
sequences are not the claimed contiguous range `[seq_no, seq_no + W) = [1, 2]`. -/
theorem next_instance_breaks_contiguous_window :
    (ConsensusMux.newReplica 0 2).decisionSeqs = [0, 1] ∧
    ((ConsensusMux.newReplica 0 2).nextInstance.2).decisionSeqs = [1, 1] ∧
    ((ConsensusMux.newReplica 0 2).nextInstance.2).decisions.length = 2 ∧
    ((ConsensusMux.newReplica 0 2).nextInstance.2).seqNo = 1 ∧
    ((ConsensusMux.newReplica 0 2).nextInstance.2).decisionSeqs ≠ [1, 2] := by
  decide

/-- C5 (failing input): in phase `Preparing(1)` (quorum 3), two identical
`PREPARE`s for the current sequence from node 2 are both counted — the
state machine reaches `Committing(0)` off the duplicate vote — and neither
call returns `VotedTwice(2)`: the source tracks no voter set (its own FIXME
says so) and never constructs `ConsensusStatus::VotedTwice`. -/
theorem duplicate_prepare_counted_no_voted_twice :
    (oldProcessMessage ⟨OldProtoPhase.preparing 1, OldTBOQueue.new 0, some 9⟩
        ⟨2, 0⟩ ⟨0, OldCMKind.prepare⟩ ⟨0, [0, 1, 2, 3], 1⟩ 0).1 =
      OldConsensusStatus.deciding ∧
    (oldProcessMessage ⟨OldProtoPhase.preparing 1, OldTBOQueue.new 0, some 9⟩
        ⟨2, 0⟩ ⟨0, OldCMKind.prepare⟩ ⟨0, [0, 1, 2, 3], 1⟩ 0).2.1.phase =
      OldProtoPhase.preparing 2 ∧
    (oldProcessMessage
        (oldProcessMessage ⟨OldProtoPhase.preparing 1, OldTBOQueue.new 0, some 9⟩
          ⟨2, 0⟩ ⟨0, OldCMKind.prepare⟩ ⟨0, [0, 1, 2, 3], 1⟩ 0).2.1
        ⟨2, 0⟩ ⟨0, OldCMKind.prepare⟩ ⟨0, [0, 1, 2, 3], 1⟩ 0).1 ≠
      OldConsensusStatus.votedTwice 2 ∧
    (oldProcessMessage
        (oldProcessMessage ⟨OldProtoPhase.preparing 1, OldTBOQueue.new 0, some 9⟩
          ⟨2, 0⟩ ⟨0, OldCMKind.prepare⟩ ⟨0, [0, 1, 2, 3], 1⟩ 0).2.1
        ⟨2, 0⟩ ⟨0, OldCMKind.prepare⟩ ⟨0, [0, 1, 2, 3], 1⟩ 0).2.1.phase =
      OldProtoPhase.committing 0 := by
  decide

/-- C1: the view-change soundness check returns `Bound(d)` only if some
timestamp `ts` satisfies `binds(V, ts, d, N)` — that is, `N` holds at least
`quorum(V)` entries, `quorum_highest(V, ts, d, N)` holds (one collect's
`quorum_prepares` equals `(ts, d)` and at least `quorum(V)` collects'
`quorum_prepares` are strictly older than `ts` or equal to `(ts, d)`), and
`certified_value(V, ts, d, N)` holds (the write-set pairs `(ts', v')` with
`ts' ≥ ts` and `v' = d`, summed over all collects, outnumber `f`). -/
theorem sound_bound_only_if_binds (V : ViewInfo) (N : List (Option CollectData))
    (d : Digest) (h : sound V N = Sound.bound d) :
    ∃ ts, binds V ts d N = true ∧
      N.length ≥ V.quorum ∧
      quorumHighest V ts d N = true ∧
      certifiedValue V ts d N = true := by
  unfold sound at h
  rcases hfind : (soundSeqNumbers N).findSome? (fun seqNo =>
      (soundValues N).findSome? (fun value =>
        if binds V seqNo value N then some value else none)) with _ | v
  · simp only [hfind] at h
    exact absurd h (by simp)
  · simp only [hfind] at h
    obtain ⟨ts, _, hts⟩ := List.exists_of_findSome?_eq_some hfind
    obtain ⟨v2, _, hv2⟩ := List.exists_of_findSome?_eq_some hts
    by_cases hb : binds V ts v2 N
    · rw [if_pos hb] at hv2
      have hv2v : v2 = v := by injection hv2
      have hvd : v = d := by injection h
      subst hv2v
      subst hvd
      have hb2 := hb
      unfold binds at hb2
      by_cases hlen : N.length < V.quorum
      · rw [if_pos hlen] at hb2
        exact absurd hb2 (by simp)
      · rw [if_neg hlen] at hb2
        simp only [Bool.and_eq_true] at hb2
        exact ⟨ts, hb, by omega, hb2.1, hb2.2⟩
    · rw [if_neg hb] at hv2
      exact absurd hv2 (by simp)

/-- Witness for C1 at a concrete view (quorum 3) and three identical
collects whose quorum write is `(1, 7)` with write set `[(1,7), (1,7)]`:
`sound` returns `Bound(7)`, and a binding timestamp exists. -/
theorem sound_bound_only_if_binds_witness :
    ∃ ts, binds ⟨0, [0, 1, 2, 3], 1⟩ ts 7
        [some ⟨⟨0, some ⟨1, 7⟩, [⟨1, 7⟩, ⟨1, 7⟩]⟩, none⟩,
          some ⟨⟨0, some ⟨1, 7⟩, [⟨1, 7⟩, ⟨1, 7⟩]⟩, none⟩,
          some ⟨⟨0, some ⟨1, 7⟩, [⟨1, 7⟩, ⟨1, 7⟩]⟩, none⟩] = true ∧
      List.length
          [some (⟨⟨0, some ⟨1, 7⟩, [⟨1, 7⟩, ⟨1, 7⟩]⟩, none⟩ : CollectData),
            some ⟨⟨0, some ⟨1, 7⟩, [⟨1, 7⟩, ⟨1, 7⟩]⟩, none⟩,
            some ⟨⟨0, some ⟨1, 7⟩, [⟨1, 7⟩, ⟨1, 7⟩]⟩, none⟩] ≥
        ViewInfo.quorum ⟨0, [0, 1, 2, 3], 1⟩ ∧
      quorumHighest ⟨0, [0, 1, 2, 3], 1⟩ ts 7
        [some ⟨⟨0, some ⟨1, 7⟩, [⟨1, 7⟩, ⟨1, 7⟩]⟩, none⟩,
          some ⟨⟨0, some ⟨1, 7⟩, [⟨1, 7⟩, ⟨1, 7⟩]⟩, none⟩,
          some ⟨⟨0, some ⟨1, 7⟩, [⟨1, 7⟩, ⟨1, 7⟩]⟩, none⟩] = true ∧
      certifiedValue ⟨0, [0, 1, 2, 3], 1⟩ ts 7
        [some ⟨⟨0, some ⟨1, 7⟩, [⟨1, 7⟩, ⟨1, 7⟩]⟩, none⟩,
          some ⟨⟨0, some ⟨1, 7⟩, [⟨1, 7⟩, ⟨1, 7⟩]⟩, none⟩,
          some ⟨⟨0, some ⟨1, 7⟩, [⟨1, 7⟩, ⟨1, 7⟩]⟩, none⟩] = true :=
  sound_bound_only_if_binds ⟨0, [0, 1, 2, 3], 1⟩
    [some ⟨⟨0, some ⟨1, 7⟩, [⟨1, 7⟩, ⟨1, 7⟩]⟩, none⟩,
      some ⟨⟨0, some ⟨1, 7⟩, [⟨1, 7⟩, ⟨1, 7⟩]⟩, none⟩,
      some ⟨⟨0, some ⟨1, 7⟩, [⟨1, 7⟩, ⟨1, 7⟩]⟩, none⟩] 7 (by decide)

/-- Auxiliary: the fold implementing `Iterator::max_by_key` returns either
its seed or a list member, and its result's sequence number dominates both
the seed's and every member's. -/
theorem lastMaxBySeq_foldl_spec (l : List Proof) :
    ∀ (acc : Option Proof) (p : Proof),
      l.foldl (fun acc p =>
        match acc with
        | none => some p
        | some q => if q.seq ≤ p.seq then some p else some q) acc = some p →
      (acc = some p ∨ p ∈ l) ∧
      (∀ q, acc = some q → q.seq ≤ p.seq) ∧
      (∀ q ∈ l, q.seq ≤ p.seq) := by
  induction l with
  | nil =>
    intro acc p h
    simp only [List.foldl_nil] at h
    subst h
    refine ⟨Or.inl rfl, ?_, ?_⟩
    · intro q hq
      cases hq
      exact le_rfl
    · intro q hq
      exact absurd hq (List.not_mem_nil q)
  | cons x xs ih =>
    intro acc p h
    simp only [List.foldl_cons] at h
    cases acc with
    | none =>
      obtain ⟨hmem, hacc, hall⟩ := ih (some x) p h
      have hx : x.seq ≤ p.seq := hacc x rfl
      refine ⟨?_, ?_, ?_⟩
      · rcases hmem with hm | hm
        · have e : x = p := by injection hm
          exact Or.inr (e ▸ List.mem_cons_self x xs)
        · exact Or.inr (List.mem_cons_of_mem x hm)
      · intro q hq
        cases hq
      · intro q hq
        rcases List.mem_cons.mp hq with rfl | hq2
        · exact hx
        · exact hall q hq2
    | some a =>
      by_cases hle : a.seq ≤ x.seq
      · have h2 : List.foldl (fun acc p =>
            match acc with
            | none => some p
            | some q => if q.seq ≤ p.seq then some p else some q) (some x) xs = some p := by
          simpa [hle] using h
        obtain ⟨hmem, hacc, hall⟩ := ih (some x) p h2
        have hx : x.seq ≤ p.seq := hacc x rfl
        refine ⟨?_, ?_, ?_⟩
        · rcases hmem with hm | hm
          · have e : x = p := by injection hm
            exact Or.inr (e ▸ List.mem_cons_self x xs)
          · exact Or.inr (List.mem_cons_of_mem x hm)
        · intro q hq
          cases hq
          exact le_trans hle hx
        · intro q hq
          rcases List.mem_cons.mp hq with rfl | hq2
          · exact hx
          · exact hall q hq2
      · have h2 : List.foldl (fun acc p =>
            match acc with
            | none => some p
            | some q => if q.seq ≤ p.seq then some p else some q) (some a) xs = some p := by
          simpa [hle] using h
        obtain ⟨hmem, hacc, hall⟩ := ih (some a) p h2
        have ha : a.seq ≤ p.seq := hacc a rfl
        refine ⟨?_, ?_, ?_⟩
        · rcases hmem with hm | hm
          · exact Or.inl hm
          · exact Or.inr (List.mem_cons_of_mem x hm)
        · intro q hq
          cases hq
          exact ha
        · intro q hq
          rcases List.mem_cons.mp hq with rfl | hq2
          · exact le_trans (le_of_lt (not_le.mp hle)) ha
          · exact hall q hq2

/-- C3: `highest_proof` returns `Some(p)` only if `p` is one of the collects'
last proofs, at least `quorum` of `p`'s prepares carry `p`'s batch digest
and validate against their sender's signature and likewise `p`'s commits
(`proofPasses`), and `p`'s sequence number is maximal among all proofs
passing that filter; the new consensus id is then `p.seq + 1`, and `0`
when no proof qualifies. -/
theorem highest_proof_spec (view : ViewInfo) (valid : Header → Bool)
    (collects : List (StoredMessage ViewChangeMessage)) :
    (∀ p, highestProof view valid collects = some p →
      proofPasses view valid p = true ∧
      p ∈ (collectData collects).filterMap CollectData.lastProof ∧
      (∀ q ∈ ((collectData collects).filterMap CollectData.lastProof).filter
          (proofPasses view valid), q.seq ≤ p.seq) ∧
      currCid view valid collects = p.seq + 1) ∧
    (highestProof view valid collects = none →
      currCid view valid collects = 0) := by
  constructor
  · intro p hp
    have h := lastMaxBySeq_foldl_spec
      (((collectData collects).filterMap CollectData.lastProof).filter
        (proofPasses view valid)) none p hp
    obtain ⟨hmem, _, hall⟩ := h
    rcases hmem with hm | hm
    · exact absurd hm (by simp)
    · have hmf := List.mem_filter.mp hm
      refine ⟨hmf.2, hmf.1, hall, ?_⟩
      unfold currCid
      rw [hp]
  · intro hp
    unfold currCid
    rw [hp]

/-- Witness for C3: with quorum 3 and an always-valid signature oracle,
`highest_proof` over `exampleCollects` picks the fully signed proof for
sequence 7 (the incomplete one for sequence 3 is skipped), and the new
consensus id is 8. -/
theorem highest_proof_spec_witness :
    proofPasses ⟨0, [0, 1, 2, 3], 1⟩ (fun _ => true) exampleProof7 = true ∧
    exampleProof7 ∈ (collectData exampleCollects).filterMap CollectData.lastProof ∧
    (∀ q ∈ ((collectData exampleCollects).filterMap CollectData.lastProof).filter
        (proofPasses ⟨0, [0, 1, 2, 3], 1⟩ (fun _ => true)),
      q.seq ≤ exampleProof7.seq) ∧
    currCid ⟨0, [0, 1, 2, 3], 1⟩ (fun _ => true) exampleCollects =
      exampleProof7.seq + 1 :=
  (highest_proof_spec ⟨0, [0, 1, 2, 3], 1⟩ (fun _ => true) exampleCollects).1
    exampleProof7 (by decide)

/-- Auxiliary: padding a bucket queue with empty buckets changes no bucket. -/
theorem oldTbo_getD_pad (q : List (List OldConsensusMessage)) (n j : Nat) :
    (q ++ List.replicate n []).getD j [] = q.getD j [] := by
  simp only [List.getD_eq_getElem?_getD]
  rw [List.getElem?_append]
  rcases lt_or_ge j q.length with h | h
  · rw [if_pos h]
  · rw [if_neg (by omega)]
    rw [List.getElem?_len_le h]
    rcases lt_or_ge (j - q.length) n with h2 | h2
    · simp [List.getElem?_replicate, h2]
    · rw [List.getElem?_len_le (by simp; omega)]

/-- Auxiliary: reading a bucket after setting one. -/
theorem oldTbo_getD_set (l : List (List OldConsensusMessage)) (i j : Nat)
    (x : List OldConsensusMessage) (h : i < l.length) :
    (l.set i x).getD j [] = if j = i then x else l.getD j [] := by
  simp only [List.getD_eq_getElem?_getD, List.getElem?_set]
  split
  · next he => subst he; simp [h]
  · next he => rw [if_neg (fun hh => he hh.symm)]

/-- Auxiliary: `queue_message` appends the message to the bucket at its
offset and leaves every other bucket unchanged (a stale message touches no
bucket, matching the impossible offset condition). -/
theorem bucketAt_oldQueueMessage (b : Int) (q : List (List OldConsensusMessage))
    (m : OldConsensusMessage) (j : Nat) :
    bucketAt (oldQueueMessage b q m) j
      = bucketAt q j ++ (if m.seq = b + (j : Int) then [m] else []) := by
  unfold oldQueueMessage bucketAt
  by_cases hneg : m.seq - b < 0
  · rw [if_pos hneg, if_neg (by omega)]
    simp
  · rw [if_neg hneg]
    simp only []
    set idx := (m.seq - b).toNat with hidx
    have hij : (j = idx) ↔ (m.seq = b + (j : Int)) := by
      constructor
      · intro he; subst he; omega
      · intro he; omega
    by_cases hlen : idx ≥ q.length
    · rw [if_pos hlen]
      have hlt : idx <
          (q ++ List.replicate (idx - q.length + 1) ([] : List OldConsensusMessage)).length := by
        simp
        omega
      rw [oldTbo_getD_set _ _ _ _ hlt]
      by_cases hj : j = idx
      · rw [if_pos hj, if_pos (hij.mp hj), oldTbo_getD_pad, hj]
      · rw [if_neg hj, if_neg (fun hh => hj (hij.mpr hh)), oldTbo_getD_pad]
        simp
    · rw [if_neg hlen]
      have hlt : idx < q.length := by omega
      rw [oldTbo_getD_set _ _ _ _ hlt]
      by_cases hj : j = idx
      · rw [if_pos hj, if_pos (hij.mp hj), hj]
      · rw [if_neg hj, if_neg (fun hh => hj (hij.mpr hh))]
        simp

/-- Auxiliary: after queueing a message list into a bucket queue, each
bucket extends its previous content with exactly the messages of its
sequence, in insertion order. -/
theorem bucketAt_foldl_oldQueueMessage (b : Int) (msgs : List OldConsensusMessage) :
    ∀ (q : List (List OldConsensusMessage)) (j : Nat),
      bucketAt (msgs.foldl (oldQueueMessage b) q) j
        = bucketAt q j ++ msgs.filter (fun x => x.seq = b + (j : Int)) := by
  induction msgs with
  | nil => intro q j; simp
  | cons m ms ih =>
    intro q j
    simp only [List.foldl_cons, List.filter_cons]
    rw [ih, bucketAt_oldQueueMessage]
    by_cases hc : m.seq = b + (j : Int)
    · rw [if_pos hc, if_pos (decide_eq_true hc)]
      simp
    · rw [if_neg hc, if_neg (by simpa using hc)]
      simp

/-- Auxiliary: advancing the queue `k` times drops its first `k` buckets. -/
theorem oldAdvanceMessageQueueN_eq_drop :
    ∀ (k : Nat) (q : List (List OldConsensusMessage)),
      oldAdvanceMessageQueueN q k = q.drop k := by
  intro k
  induction k with
  | zero => intro q; rfl
  | succ n ih =>
    intro q
    show oldAdvanceMessageQueueN (oldAdvanceMessageQueue q) n = _
    rw [ih]
    unfold oldAdvanceMessageQueue
    cases q <;> simp

/-- C7: for every base sequence `b` and message `m`, `queue_message` leaves
the queue unchanged when `m.seq < b`; otherwise it appends `m` to the bucket
at offset `m.seq - b` and touches no other bucket; and after queueing any
message list into an empty queue and advancing `k` times, the current
bucket holds exactly the messages of sequence `b + k` in their original
insertion (FIFO) order, which `pop_message` then yields front first. -/
theorem tbo_queue_message_fifo :
    (∀ (b : Int) (q : List (List OldConsensusMessage)) (m : OldConsensusMessage),
      m.seq < b → oldQueueMessage b q m = q) ∧
    (∀ (b : Int) (q : List (List OldConsensusMessage)) (m : OldConsensusMessage),
      b ≤ m.seq →
      bucketAt (oldQueueMessage b q m) (m.seq - b).toNat
          = bucketAt q (m.seq - b).toNat ++ [m] ∧
      ∀ j, j ≠ (m.seq - b).toNat →
        bucketAt (oldQueueMessage b q m) j = bucketAt q j) ∧
    (∀ (b : Int) (msgs : List OldConsensusMessage) (k : Nat),
      bucketAt (oldAdvanceMessageQueueN (msgs.foldl (oldQueueMessage b) []) k) 0
        = msgs.filter (fun x => x.seq = b + (k : Int))) ∧
    (∀ tbo, (oldPopMessage tbo).1 = (bucketAt tbo 0).head? ∧
      bucketAt (oldPopMessage tbo).2 0 = (bucketAt tbo 0).tail) := by
  refine ⟨?_, ?_, ?_, ?_⟩
  · intro b q m h
    unfold oldQueueMessage
    rw [if_pos (by omega)]
  · intro b q m h
    constructor
    · rw [bucketAt_oldQueueMessage, if_pos (by omega)]
    · intro j hj
      rw [bucketAt_oldQueueMessage, if_neg (by omega)]
      simp
  · intro b msgs k
    rw [oldAdvanceMessageQueueN_eq_drop]
    have hdrop : bucketAt ((msgs.foldl (oldQueueMessage b) []).drop k) 0
        = bucketAt (msgs.foldl (oldQueueMessage b) []) k := by
      unfold bucketAt
      simp only [List.getD_eq_getElem?_getD, List.getElem?_drop, Nat.add_zero]
    rw [hdrop, bucketAt_foldl_oldQueueMessage]
    simp [bucketAt]
  · intro tbo
    rcases tbo with _ | ⟨b0, rest⟩
    · simp [oldPopMessage, bucketAt]
    · rcases b0 with _ | ⟨x, xs⟩ <;> simp [oldPopMessage, bucketAt]

/-- Witness for C7 at base sequence 5: a message for sequence 4 is dropped;
one for sequence 6 is appended at offset 1; queueing three messages and
advancing once leaves exactly the two sequence-6 messages current, which
`pop_message` yields front first. -/
theorem tbo_queue_message_fifo_witness :
    oldQueueMessage 5 [[⟨5, OldCMKind.prepare⟩]] ⟨4, OldCMKind.commit⟩
        = [[⟨5, OldCMKind.prepare⟩]] ∧
    bucketAt (oldQueueMessage 5 [[⟨5, OldCMKind.prepare⟩]] ⟨6, OldCMKind.commit⟩)
        ((6 - 5 : Int)).toNat
      = bucketAt [[⟨5, OldCMKind.prepare⟩]] ((6 - 5 : Int)).toNat
          ++ [⟨6, OldCMKind.commit⟩] ∧
    bucketAt (oldAdvanceMessageQueueN
        ([⟨6, OldCMKind.prePrepare 1⟩, ⟨5, OldCMKind.prepare⟩,
            ⟨6, OldCMKind.commit⟩].foldl (oldQueueMessage 5) []) 1) 0
      = [⟨6, OldCMKind.prePrepare 1⟩, ⟨5, OldCMKind.prepare⟩,
          ⟨6, OldCMKind.commit⟩].filter (fun x => x.seq = 5 + ((1 : Nat) : Int)) ∧
    (oldPopMessage [[⟨6, OldCMKind.prePrepare 1⟩, ⟨6, OldCMKind.commit⟩]]).1
      = (bucketAt [[⟨6, OldCMKind.prePrepare 1⟩, ⟨6, OldCMKind.commit⟩]] 0).head? :=
  ⟨tbo_queue_message_fifo.1 5 [[⟨5, OldCMKind.prepare⟩]] ⟨4, OldCMKind.commit⟩
      (by decide),
   (tbo_queue_message_fifo.2.1 5 [[⟨5, OldCMKind.prepare⟩]] ⟨6, OldCMKind.commit⟩
      (by decide)).1,
   tbo_queue_message_fifo.2.2.1 5
     [⟨6, OldCMKind.prePrepare 1⟩, ⟨5, OldCMKind.prepare⟩, ⟨6, OldCMKind.commit⟩] 1,
   (tbo_queue_message_fifo.2.2.2
     [[⟨6, OldCMKind.prePrepare 1⟩, ⟨6, OldCMKind.commit⟩]]).1⟩

/-- Auxiliary: the duplicate-avoiding accumulation of known stopped digests
never removes an element already present. -/
theorem foldl_dedup_append_mono (l : List ClientRqInfo) :
    ∀ (acc : List ClientRqInfo) (x : ClientRqInfo), x ∈ acc →
      x ∈ l.foldl (fun acc rq => if acc.contains rq then acc else acc ++ [rq]) acc := by
  induction l with
  | nil => intro acc x hx; simpa using hx
  | cons y ys ih =>
    intro acc x hx
    simp only [List.foldl_cons]
    by_cases hc : acc.contains y
    · rw [if_pos hc]
      exact ih acc x hx
    · rw [if_neg hc]
      exact ih (acc ++ [y]) x (List.mem_append_left _ hx)

/-- C8: `client_requests_timed_out` places every phase-0 timeout in the
forwarded list (which holds exactly the phase-0 timeouts, in order) and
every timeout of phase ≥ 1 in the stopped list; when both classification
lists are empty — i.e. when the batch is empty — it returns `Nil`, and
otherwise `RequestsTimedOut{forwarded, stopped}`. -/
theorem client_requests_timed_out_spec
    (stoppedMap : List (NodeId × List StoredRequest)) (rqs : List RqTimeout) :
    (clientRequestsTimedOut stoppedMap rqs = SyncStatus.nil ↔ rqs = []) ∧
    (rqs ≠ [] → ∃ fwd stp,
      clientRequestsTimedOut stoppedMap rqs = SyncStatus.requestsTimedOut fwd stp ∧
      fwd = (rqs.filter (fun t => t.phaseId = 0)).map RqTimeout.rqInfo ∧
      (∀ r ∈ rqs, r.phaseId = 0 → r.rqInfo ∈ fwd) ∧
      (∀ r ∈ rqs, 1 ≤ r.phaseId → r.rqInfo ∈ stp)) := by
  have hcover : ∀ r : RqTimeout, r.phaseId = 0 ∨ 1 ≤ r.phaseId := by
    intro r; omega
  constructor
  · constructor
    · intro h
      unfold clientRequestsTimedOut at h
      by_cases hif : ((rqs.filter (fun t => t.phaseId = 0)).map RqTimeout.rqInfo).isEmpty
          && ((rqs.filter (fun t => 1 ≤ t.phaseId)).map RqTimeout.rqInfo).isEmpty
      · simp only [Bool.and_eq_true, List.isEmpty_iff, List.map_eq_nil_iff,
          List.filter_eq_nil_iff] at hif
        obtain ⟨h0, h1⟩ := hif
        cases rqs with
        | nil => rfl
        | cons r rs =>
          rcases hcover r with hc | hc
          · exact absurd (by simpa using hc) (by
              have := h0 r (List.mem_cons_self r rs)
              simpa using this)
          · exact absurd (by simpa using hc) (by
              have := h1 r (List.mem_cons_self r rs)
              simpa using this)
      · rw [if_neg (by simpa using hif)] at h
        exact absurd h (by simp)
    · intro h
      subst h
      unfold clientRequestsTimedOut
      simp
  · intro hne
    unfold clientRequestsTimedOut
    have hif : ¬(((rqs.filter (fun t => t.phaseId = 0)).map RqTimeout.rqInfo).isEmpty
        && ((rqs.filter (fun t => 1 ≤ t.phaseId)).map RqTimeout.rqInfo).isEmpty) = true := by
      intro hc
      simp only [Bool.and_eq_true, List.isEmpty_iff, List.map_eq_nil_iff,
        List.filter_eq_nil_iff] at hc
      obtain ⟨h0, h1⟩ := hc
      cases rqs with
      | nil => exact hne rfl
      | cons r rs =>
        rcases hcover r with hcv | hcv
        · have := h0 r (List.mem_cons_self r rs)
          simp only [decide_eq_true_eq] at this
          exact this hcv
        · have := h1 r (List.mem_cons_self r rs)
          simp only [decide_eq_true_eq] at this
          exact this hcv
    rw [if_neg hif]
    refine ⟨_, _, rfl, rfl, ?_, ?_⟩
    · intro r hr h0
      exact List.mem_map_of_mem RqTimeout.rqInfo
        (List.mem_filter.mpr ⟨hr, by simpa using h0⟩)
    · intro r hr h1
      have hbase : r.rqInfo ∈ (rqs.filter (fun t => 1 ≤ t.phaseId)).map RqTimeout.rqInfo :=
        List.mem_map_of_mem RqTimeout.rqInfo
          (List.mem_filter.mpr ⟨hr, by simpa using h1⟩)
      by_cases hcond : ¬((rqs.filter (fun t => 1 ≤ t.phaseId)).map RqTimeout.rqInfo).isEmpty
          || ¬stoppedMap.isEmpty
      · rw [if_pos hcond]
        exact foldl_dedup_append_mono _ _ _ hbase
      · rw [if_neg hcond]
        exact hbase

/-- Witness for C8: a batch with one phase-0 and one phase-1 timeout (no
prior STOPs) yields `RequestsTimedOut` with the phase-0 request forwarded
and the phase-1 request stopped; an empty batch yields `Nil`. -/
theorem client_requests_timed_out_spec_witness :
    clientRequestsTimedOut [] [] = SyncStatus.nil ∧
    (∃ fwd stp,
      clientRequestsTimedOut [] [⟨0, 11⟩, ⟨1, 22⟩] = SyncStatus.requestsTimedOut fwd stp ∧
      fwd = ([⟨0, 11⟩, ⟨1, 22⟩].filter
          (fun t : RqTimeout => t.phaseId = 0)).map RqTimeout.rqInfo ∧
      (∀ r ∈ [(⟨0, 11⟩ : RqTimeout), ⟨1, 22⟩], r.phaseId = 0 → r.rqInfo ∈ fwd) ∧
      (∀ r ∈ [(⟨0, 11⟩ : RqTimeout), ⟨1, 22⟩], 1 ≤ r.phaseId → r.rqInfo ∈ stp)) :=
  ⟨(client_requests_timed_out_spec [] []).1.mpr rfl,
   (client_requests_timed_out_spec [] [⟨0, 11⟩, ⟨1, 22⟩]).2 (by decide)⟩

/-- C6 counterexample (the claim as stated): with quorum 3, cst sequence 1,
two replies already aggregated for distinct digests and a third reply for
yet another digest, the quorum of processed replies is reached but the top
count (1) is below quorum — the code returns `Running` and stays in
`ReceivingCid(3)`, it does not request the latest cid again
(`RequestStateCid`). -/
theorem receiving_cid_below_quorum_returns_running :
    (cstProcessReceivingCid ⟨0, [0, 1, 2, 3], 1⟩
        ⟨1, CstPhase.receivingCid 2, [(1, ⟨10, 1⟩), (2, ⟨10, 1⟩)], 5, 20⟩ 2
        ⟨1, 0⟩ ⟨1, CstMessageKind.replyStateCid (some (10, 3))⟩).1
      = CstStatus.running ∧
    (cstProcessReceivingCid ⟨0, [0, 1, 2, 3], 1⟩
        ⟨1, CstPhase.receivingCid 2, [(1, ⟨10, 1⟩), (2, ⟨10, 1⟩)], 5, 20⟩ 2
        ⟨1, 0⟩ ⟨1, CstMessageKind.replyStateCid (some (10, 3))⟩).2.phase
      = CstPhase.receivingCid 3 ∧
    CstStatus.running ≠ CstStatus.requestStateCid := by
  decide

/-- Auxiliary: the stable descending insertion never yields an empty list. -/
theorem cstInsertDesc_ne_nil (x : Digest × ReceivedStateCid)
    (s : List (Digest × ReceivedStateCid)) : cstInsertDesc x s ≠ [] := by
  cases s with
  | nil => simp [cstInsertDesc]
  | cons y ys =>
    unfold cstInsertDesc
    split <;> simp

/-- Auxiliary: the head of a descending insertion dominates the inserted
element and the previous head. -/
theorem cstInsertDesc_head_max (x : Digest × ReceivedStateCid)
    (s : List (Digest × ReceivedStateCid)) (h : Digest × ReceivedStateCid)
    (hh : (cstInsertDesc x s).head? = some h) :
    x.2.count ≤ h.2.count ∧ ∀ y, s.head? = some y → y.2.count ≤ h.2.count := by
  cases s with
  | nil =>
    simp only [cstInsertDesc, List.head?_cons, Option.some_inj] at hh
    subst hh
    exact ⟨le_rfl, by intro y hy; cases hy⟩
  | cons y ys =>
    unfold cstInsertDesc at hh
    by_cases hge : y.2.count ≥ x.2.count
    · rw [if_pos hge] at hh
      simp only [List.head?_cons, Option.some_inj] at hh
      subst hh
      exact ⟨hge, by intro z hz; cases hz; exact le_rfl⟩
    · rw [if_neg hge] at hh
      simp only [List.head?_cons, Option.some_inj] at hh
      subst hh
      exact ⟨le_rfl, by intro z hz; cases hz; omega⟩

/-- Auxiliary: the head of the descending sort has the greatest count. -/
theorem cstSortDesc_head_max (l : List (Digest × ReceivedStateCid)) :
    ∀ h, (cstSortDesc l).head? = some h → ∀ y ∈ l, y.2.count ≤ h.2.count := by
  induction l with
  | nil => intro h hh; cases hh
  | cons a as ih =>
    intro h hh y hy
    unfold cstSortDesc at hh
    obtain ⟨ha, hprev⟩ := cstInsertDesc_head_max a (cstSortDesc as) h hh
    rcases List.mem_cons.mp hy with rfl | hy2
    · exact ha
    · cases hsort : cstSortDesc as with
      | nil =>
        exfalso
        cases as with
        | nil => exact absurd hy2 (List.not_mem_nil y)
        | cons b bs => exact cstInsertDesc_ne_nil b (cstSortDesc bs) hsort
      | cons c cs =>
        have hc : c.2.count ≤ h.2.count := hprev c (by rw [hsort]; rfl)
        have := ih c (by rw [hsort]; rfl) y hy2
        omega

/-- C6 (amended): in ReceivingCid, once the processed replies for the
current cst sequence reach `quorum(view)`, a `ReplyStateCid` resolves as
follows — if no digest was recorded (every reply blank) the result is
`SeqNo(0)`; if the digest with the greatest reply count (the head of the
descending sort dominates every entry) has count at least `quorum`, the
result is `SeqNo` of that digest's recorded cid, back in the `Init` phase;
otherwise the call returns `Running` and stays in `ReceivingCid` with the
advanced reply counter (rather than requesting the latest cid again). -/
theorem receiving_cid_quorum_resolution (view : ViewInfo) (st : CstState)
    (i : Nat) (hdr : Header) (sc : Option (SeqNo × Digest))
    (hq : view.quorum ≤ i + 1) :
    (cstAggregate st.receivedStateIds sc = [] →
      (cstProcessReceivingCid view st i hdr
          ⟨st.currSeq, CstMessageKind.replyStateCid sc⟩).1 = CstStatus.seqNo 0 ∧
      (cstProcessReceivingCid view st i hdr
          ⟨st.currSeq, CstMessageKind.replyStateCid sc⟩).2.phase = CstPhase.init) ∧
    (∀ d e, (cstSortDesc (cstAggregate st.receivedStateIds sc)).head? = some (d, e) →
      (∀ y ∈ cstAggregate st.receivedStateIds sc, y.2.count ≤ e.count) ∧
      (view.quorum ≤ e.count →
        (cstProcessReceivingCid view st i hdr
            ⟨st.currSeq, CstMessageKind.replyStateCid sc⟩).1 = CstStatus.seqNo e.cid ∧
        (cstProcessReceivingCid view st i hdr
            ⟨st.currSeq, CstMessageKind.replyStateCid sc⟩).2.phase = CstPhase.init) ∧
      (e.count < view.quorum →
        (cstProcessReceivingCid view st i hdr
            ⟨st.currSeq, CstMessageKind.replyStateCid sc⟩).1 = CstStatus.running ∧
        (cstProcessReceivingCid view st i hdr
            ⟨st.currSeq, CstMessageKind.replyStateCid sc⟩).2.phase
          = CstPhase.receivingCid (i + 1))) := by
  have hred : cstProcessReceivingCid view st i hdr
      ⟨st.currSeq, CstMessageKind.replyStateCid sc⟩ =
      (let st2 : CstState := { st with
          receivedStateIds := cstAggregate st.receivedStateIds sc,
          phase := CstPhase.init, currTimeout := st.baseTimeout }
       match (cstSortDesc st2.receivedStateIds).head? with
       | some (_, e) =>
         if e.count ≥ view.quorum then
           (CstStatus.seqNo e.cid, st2)
         else
           (CstStatus.running, { st2 with phase := CstPhase.receivingCid (i + 1) })
       | none => (CstStatus.seqNo 0, st2)) := by
    unfold cstProcessReceivingCid
    rw [if_neg (by simp)]
    cases sc with
    | none =>
      simp only [cstAggregate]
      rw [if_pos hq]
    | some p =>
      rcases p with ⟨cid, digest⟩
      simp only [cstAggregate]
      rw [if_pos hq]
  rw [hred]
  cases sc with
  | none =>
    simp only [cstAggregate]
    constructor
    · intro hempty
      rw [hempty]
      simp [cstSortDesc]
    · intro d e hh
      refine ⟨fun y hy => cstSortDesc_head_max _ _ hh y hy, ?_, ?_⟩
      · intro hcnt
        rw [hh]
        dsimp only
        rw [if_pos hcnt]
        exact ⟨rfl, rfl⟩
      · intro hcnt
        rw [hh]
        dsimp only
        rw [if_neg (by omega)]
        exact ⟨rfl, rfl⟩
  | some p =>
    rcases p with ⟨cid, digest⟩
    simp only [cstAggregate]
    constructor
    · intro hempty
      rw [hempty]
      simp [cstSortDesc]
    · intro d e hh
      refine ⟨fun y hy => cstSortDesc_head_max _ _ hh y hy, ?_, ?_⟩
      · intro hcnt
        rw [hh]
        dsimp only
        rw [if_pos hcnt]
        exact ⟨rfl, rfl⟩
      · intro hcnt
        rw [hh]
        dsimp only
        rw [if_neg (by omega)]
        exact ⟨rfl, rfl⟩

/-- Witness for the amended C6 at a concrete state: at quorum 3, with
digest 9 aggregated at count 2 and a third matching reply arriving, the
sorted head is `(9, {cid 10, count 3})` and the call resolves to
`SeqNo(10)` in the `Init` phase. -/
theorem receiving_cid_quorum_resolution_witness :
    (∀ y ∈ cstAggregate [(9, ⟨10, 2⟩)] (some (10, 9)),
      y.2.count ≤ (⟨10, 3⟩ : ReceivedStateCid).count) ∧
    (ViewInfo.quorum ⟨0, [0, 1, 2, 3], 1⟩ ≤ (⟨10, 3⟩ : ReceivedStateCid).count →
      (cstProcessReceivingCid ⟨0, [0, 1, 2, 3], 1⟩
          ⟨1, CstPhase.receivingCid 2, [(9, ⟨10, 2⟩)], 5, 20⟩ 2 ⟨1, 0⟩
          ⟨(⟨1, CstPhase.receivingCid 2, [(9, ⟨10, 2⟩)], 5, 20⟩ : CstState).currSeq,
            CstMessageKind.replyStateCid (some (10, 9))⟩).1
        = CstStatus.seqNo (⟨10, 3⟩ : ReceivedStateCid).cid ∧
      (cstProcessReceivingCid ⟨0, [0, 1, 2, 3], 1⟩
          ⟨1, CstPhase.receivingCid 2, [(9, ⟨10, 2⟩)], 5, 20⟩ 2 ⟨1, 0⟩
          ⟨(⟨1, CstPhase.receivingCid 2, [(9, ⟨10, 2⟩)], 5, 20⟩ : CstState).currSeq,
            CstMessageKind.replyStateCid (some (10, 9))⟩).2.phase = CstPhase.init) ∧
    ((⟨10, 3⟩ : ReceivedStateCid).count < ViewInfo.quorum ⟨0, [0, 1, 2, 3], 1⟩ →
      (cstProcessReceivingCid ⟨0, [0, 1, 2, 3], 1⟩
          ⟨1, CstPhase.receivingCid 2, [(9, ⟨10, 2⟩)], 5, 20⟩ 2 ⟨1, 0⟩
          ⟨(⟨1, CstPhase.receivingCid 2, [(9, ⟨10, 2⟩)], 5, 20⟩ : CstState).currSeq,
            CstMessageKind.replyStateCid (some (10, 9))⟩).1 = CstStatus.running ∧
      (cstProcessReceivingCid ⟨0, [0, 1, 2, 3], 1⟩
          ⟨1, CstPhase.receivingCid 2, [(9, ⟨10, 2⟩)], 5, 20⟩ 2 ⟨1, 0⟩
          ⟨(⟨1, CstPhase.receivingCid 2, [(9, ⟨10, 2⟩)], 5, 20⟩ : CstState).currSeq,
            CstMessageKind.replyStateCid (some (10, 9))⟩).2.phase
        = CstPhase.receivingCid (2 + 1)) :=
  (receiving_cid_quorum_resolution ⟨0, [0, 1, 2, 3], 1⟩
      ⟨1, CstPhase.receivingCid 2, [(9, ⟨10, 2⟩)], 5, 20⟩ 2 ⟨1, 0⟩
      (some (10, 9)) (by decide)).2 9 ⟨10, 3⟩ (by decide)

/-- Auxiliary: the keep-first accumulation (`entry().or_insert_with`) over
one request list preserves the association-map invariants — keys are their
values' digests, keys stay duplicate-free, existing entries are untouched
— and covers every digest of the list. -/
theorem keepFold_spec (l : List StoredRequest) :
    ∀ acc : List (Digest × StoredRequest),
      (∀ p ∈ acc, p.1 = p.2.header.uniqueDigest) →
      (acc.map Prod.fst).Nodup →
      (∀ p ∈ l.foldl (fun acc r =>
          if acc.any (fun p => p.1 = r.header.uniqueDigest) then acc
          else acc ++ [(r.header.uniqueDigest, r)]) acc,
        p.1 = p.2.header.uniqueDigest) ∧
      ((l.foldl (fun acc r =>
          if acc.any (fun p => p.1 = r.header.uniqueDigest) then acc
          else acc ++ [(r.header.uniqueDigest, r)]) acc).map Prod.fst).Nodup ∧
      (∀ p ∈ l.foldl (fun acc r =>
          if acc.any (fun p => p.1 = r.header.uniqueDigest) then acc
          else acc ++ [(r.header.uniqueDigest, r)]) acc,
        p ∈ acc ∨ p.2 ∈ l) ∧
      (∀ p ∈ acc, p ∈ l.foldl (fun acc r =>
          if acc.any (fun p => p.1 = r.header.uniqueDigest) then acc
          else acc ++ [(r.header.uniqueDigest, r)]) acc) ∧
      (∀ r ∈ l, ∃ p ∈ l.foldl (fun acc r =>
          if acc.any (fun p => p.1 = r.header.uniqueDigest) then acc
          else acc ++ [(r.header.uniqueDigest, r)]) acc,
        p.1 = r.header.uniqueDigest) := by
  induction l with
  | nil =>
    intro acc hP hQ
    exact ⟨hP, hQ, fun p hp => Or.inl hp, fun p hp => hp,
      fun r hr => absurd hr (List.not_mem_nil r)⟩
  | cons r rest ih =>
    intro acc hP hQ
    simp only [List.foldl_cons]
    by_cases hc : acc.any (fun p => p.1 = r.header.uniqueDigest)
    · rw [if_pos hc]
      obtain ⟨iP, iQ, iO, iK, iC⟩ := ih acc hP hQ
      refine ⟨iP, iQ, ?_, iK, ?_⟩
      · intro p hp
        rcases iO p hp with h | h
        · exact Or.inl h
        · exact Or.inr (List.mem_cons_of_mem r h)
      · intro r2 hr2
        rcases List.mem_cons.mp hr2 with rfl | hr3
        · obtain ⟨p, hpacc, hpk⟩ := List.any_eq_true.mp hc
          exact ⟨p, iK p hpacc, by simpa using hpk⟩
        · exact iC r2 hr3
    · rw [if_neg hc]
      have hP2 : ∀ p ∈ acc ++ [(r.header.uniqueDigest, r)],
          p.1 = p.2.header.uniqueDigest := by
        intro p hp
        rcases List.mem_append.mp hp with h | h
        · exact hP p h
        · rcases List.mem_singleton.mp h with rfl
          rfl
      have hQ2 : ((acc ++ [(r.header.uniqueDigest, r)]).map Prod.fst).Nodup := by
        rw [List.map_append]
        refine List.Nodup.append hQ (by simp) ?_
        intro k hk hk2
        simp only [List.map_cons, List.map_nil, List.mem_singleton] at hk2
        subst hk2
        obtain ⟨p, hpacc, hpk⟩ := List.mem_map.mp hk
        exact hc (List.any_eq_true.mpr ⟨p, hpacc, by simp [hpk]⟩)
      obtain ⟨iP, iQ, iO, iK, iC⟩ := ih (acc ++ [(r.header.uniqueDigest, r)]) hP2 hQ2
      refine ⟨iP, iQ, ?_, ?_, ?_⟩
      · intro p hp
        rcases iO p hp with h | h
        · rcases List.mem_append.mp h with h2 | h2
          · exact Or.inl h2
          · rcases List.mem_singleton.mp h2 with rfl
            exact Or.inr (List.mem_cons_self r rest)
        · exact Or.inr (List.mem_cons_of_mem r h)
      · intro p hp
        exact iK p (List.mem_append_left _ hp)
      · intro r2 hr2
        rcases List.mem_cons.mp hr2 with rfl | hr3
        · exact ⟨(r2.header.uniqueDigest, r2),
            iK _ (List.mem_append_right _ (List.mem_singleton_self _)), rfl⟩
        · exact iC r2 hr3

/-- Auxiliary: the keep-first accumulation over every received STOP's
requests preserves the association-map invariants and covers every received
digest. -/
theorem mapFold_spec (m : List (NodeId × List StoredRequest)) :
    ∀ acc : List (Digest × StoredRequest),
      (∀ p ∈ acc, p.1 = p.2.header.uniqueDigest) →
      (acc.map Prod.fst).Nodup →
      (∀ p ∈ m.foldl (fun acc entry =>
          entry.2.foldl (fun acc r =>
            if acc.any (fun p => p.1 = r.header.uniqueDigest) then acc
            else acc ++ [(r.header.uniqueDigest, r)]) acc) acc,
        p.1 = p.2.header.uniqueDigest) ∧
      ((m.foldl (fun acc entry =>
          entry.2.foldl (fun acc r =>
            if acc.any (fun p => p.1 = r.header.uniqueDigest) then acc
            else acc ++ [(r.header.uniqueDigest, r)]) acc) acc).map Prod.fst).Nodup ∧
      (∀ p ∈ m.foldl (fun acc entry =>
          entry.2.foldl (fun acc r =>
            if acc.any (fun p => p.1 = r.header.uniqueDigest) then acc
            else acc ++ [(r.header.uniqueDigest, r)]) acc) acc,
        p ∈ acc ∨ ∃ e ∈ m, p.2 ∈ e.2) ∧
      (∀ p ∈ acc, p ∈ m.foldl (fun acc entry =>
          entry.2.foldl (fun acc r =>
            if acc.any (fun p => p.1 = r.header.uniqueDigest) then acc
            else acc ++ [(r.header.uniqueDigest, r)]) acc) acc) ∧
      (∀ e ∈ m, ∀ r ∈ e.2, ∃ p ∈ m.foldl (fun acc entry =>
          entry.2.foldl (fun acc r =>
            if acc.any (fun p => p.1 = r.header.uniqueDigest) then acc
            else acc ++ [(r.header.uniqueDigest, r)]) acc) acc,
        p.1 = r.header.uniqueDigest) := by
  induction m with
  | nil =>
    intro acc hP hQ
    exact ⟨hP, hQ, fun p hp => Or.inl hp, fun p hp => hp,
      fun e he => absurd he (List.not_mem_nil e)⟩
  | cons e rest ih =>
    intro acc hP hQ
    simp only [List.foldl_cons]
    obtain ⟨kP, kQ, kO, kK, kC⟩ := keepFold_spec e.2 acc hP hQ
    obtain ⟨iP, iQ, iO, iK, iC⟩ := ih _ kP kQ
    refine ⟨iP, iQ, ?_, ?_, ?_⟩
    · intro p hp
      rcases iO p hp with h | ⟨e2, he2, hpe2⟩
      · rcases kO p h with h2 | h2
        · exact Or.inl h2
        · exact Or.inr ⟨e, List.mem_cons_self e rest, h2⟩
      · exact Or.inr ⟨e2, List.mem_cons_of_mem e he2, hpe2⟩
    · intro p hp
      exact iK p (kK p hp)
    · intro e2 he2 r hr
      rcases List.mem_cons.mp he2 with rfl | he3
      · obtain ⟨p, hp, hpk⟩ := kC r hr
        exact ⟨p, iK p hp, hpk⟩
      · exact iC e2 he3 r hr

/-- Auxiliary: the replacing accumulation (`insert`) of the locally
timed-out requests preserves the association-map invariants, keeps every
existing key, and covers every timed-out digest. -/
theorem replaceFold_spec (t : List StoredRequest) :
    ∀ acc : List (Digest × StoredRequest),
      (∀ p ∈ acc, p.1 = p.2.header.uniqueDigest) →
      (acc.map Prod.fst).Nodup →
      (∀ p ∈ t.foldl (fun acc r =>
          if acc.any (fun p => p.1 = r.header.uniqueDigest) then
            acc.map (fun p => if p.1 = r.header.uniqueDigest then (p.1, r) else p)
          else acc ++ [(r.header.uniqueDigest, r)]) acc,
        p.1 = p.2.header.uniqueDigest) ∧
      ((t.foldl (fun acc r =>
          if acc.any (fun p => p.1 = r.header.uniqueDigest) then
            acc.map (fun p => if p.1 = r.header.uniqueDigest then (p.1, r) else p)
          else acc ++ [(r.header.uniqueDigest, r)]) acc).map Prod.fst).Nodup ∧
      (∀ p ∈ t.foldl (fun acc r =>
          if acc.any (fun p => p.1 = r.header.uniqueDigest) then
            acc.map (fun p => if p.1 = r.header.uniqueDigest then (p.1, r) else p)
          else acc ++ [(r.header.uniqueDigest, r)]) acc,
        p ∈ acc ∨ p.2 ∈ t) ∧
      (∀ p ∈ acc, ∃ p2 ∈ t.foldl (fun acc r =>
          if acc.any (fun p => p.1 = r.header.uniqueDigest) then
            acc.map (fun p => if p.1 = r.header.uniqueDigest then (p.1, r) else p)
          else acc ++ [(r.header.uniqueDigest, r)]) acc,
        p2.1 = p.1) ∧
      (∀ r ∈ t, ∃ p ∈ t.foldl (fun acc r =>
          if acc.any (fun p => p.1 = r.header.uniqueDigest) then
            acc.map (fun p => if p.1 = r.header.uniqueDigest then (p.1, r) else p)
          else acc ++ [(r.header.uniqueDigest, r)]) acc,
        p.1 = r.header.uniqueDigest) := by
  induction t with
  | nil =>
    intro acc hP hQ
    exact ⟨hP, hQ, fun p hp => Or.inl hp,
      fun p hp => ⟨p, hp, rfl⟩,
      fun r hr => absurd hr (List.not_mem_nil r)⟩
  | cons r rest ih =>
    intro acc hP hQ
    simp only [List.foldl_cons]
    by_cases hc : acc.any (fun p => p.1 = r.header.uniqueDigest)
    · rw [if_pos hc]
      have hP2 : ∀ p ∈ acc.map (fun p =>
          if p.1 = r.header.uniqueDigest then (p.1, r) else p),
          p.1 = p.2.header.uniqueDigest := by
        intro p hp
        obtain ⟨p0, hp0, hpe⟩ := List.mem_map.mp hp
        by_cases he : p0.1 = r.header.uniqueDigest
        · rw [if_pos he] at hpe
          subst hpe
          exact he
        · rw [if_neg he] at hpe
          subst hpe
          exact hP p0 hp0
      have hkeys : (acc.map (fun p =>
          if p.1 = r.header.uniqueDigest then (p.1, r) else p)).map Prod.fst
          = acc.map Prod.fst := by
        rw [List.map_map]
        refine List.map_congr_left ?_
        intro p hp
        by_cases he : p.1 = r.header.uniqueDigest
        · simp [he]
        · simp [he]
      have hQ2 : ((acc.map (fun p =>
          if p.1 = r.header.uniqueDigest then (p.1, r) else p)).map Prod.fst).Nodup := by
        rw [hkeys]; exact hQ
      obtain ⟨iP, iQ, iO, iK, iC⟩ := ih _ hP2 hQ2
      refine ⟨iP, iQ, ?_, ?_, ?_⟩
      · intro p hp
        rcases iO p hp with h | h
        · obtain ⟨p0, hp0, hpe⟩ := List.mem_map.mp h
          by_cases he : p0.1 = r.header.uniqueDigest
          · rw [if_pos he] at hpe
            subst hpe
            exact Or.inr (List.mem_cons_self r rest)
          · rw [if_neg he] at hpe
            subst hpe
            exact Or.inl hp0
        · exact Or.inr (List.mem_cons_of_mem r h)
      · intro p hp
        have hmem : (if p.1 = r.header.uniqueDigest then (p.1, r) else p)
            ∈ acc.map (fun p =>
              if p.1 = r.header.uniqueDigest then (p.1, r) else p) :=
          List.mem_map_of_mem _ hp
        obtain ⟨p2, hp2, hp2k⟩ := iK _ hmem
        refine ⟨p2, hp2, ?_⟩
        rw [hp2k]
        by_cases he : p.1 = r.header.uniqueDigest
        · rw [if_pos he]
        · rw [if_neg he]
      · intro r2 hr2
        rcases List.mem_cons.mp hr2 with rfl | hr3
        · obtain ⟨p, hpacc, hpk⟩ := List.any_eq_true.mp hc
          have hpk2 : p.1 = r2.header.uniqueDigest := by simpa using hpk
          obtain ⟨p2, hp2, hp2k⟩ := iK _ (List.mem_map_of_mem _ hpacc)
          refine ⟨p2, hp2, ?_⟩
          rw [hp2k, if_pos hpk2]
          exact hpk2
        · exact iC r2 hr3
    · rw [if_neg hc]
      have hP2 : ∀ p ∈ acc ++ [(r.header.uniqueDigest, r)],
          p.1 = p.2.header.uniqueDigest := by
        intro p hp
        rcases List.mem_append.mp hp with h | h
        · exact hP p h
        · rcases List.mem_singleton.mp h with rfl
          rfl
      have hQ2 : ((acc ++ [(r.header.uniqueDigest, r)]).map Prod.fst).Nodup := by
        rw [List.map_append]
        refine List.Nodup.append hQ (by simp) ?_
        intro k hk hk2
        simp only [List.map_cons, List.map_nil, List.mem_singleton] at hk2
        subst hk2
        obtain ⟨p, hpacc, hpk⟩ := List.mem_map.mp hk
        exact hc (List.any_eq_true.mpr ⟨p, hpacc, by simp [hpk]⟩)
      obtain ⟨iP, iQ, iO, iK, iC⟩ := ih _ hP2 hQ2
      refine ⟨iP, iQ, ?_, ?_, ?_⟩
      · intro p hp
        rcases iO p hp with h | h
        · rcases List.mem_append.mp h with h2 | h2
          · exact Or.inl h2
          · rcases List.mem_singleton.mp h2 with rfl
            exact Or.inr (List.mem_cons_self r rest)
        · exact Or.inr (List.mem_cons_of_mem r h)
      · intro p hp
        exact iK p (List.mem_append_left _ hp)
      · intro r2 hr2
        rcases List.mem_cons.mp hr2 with rfl | hr3
        · obtain ⟨p2, hp2, hp2k⟩ := iK (r2.header.uniqueDigest, r2)
            (List.mem_append_right _ (List.mem_singleton_self _))
          exact ⟨p2, hp2, hp2k⟩
        · exact iC r2 hr3

/-- Auxiliary: `stopped_requests` merges the locally timed-out requests
with the union of all received stopped requests, deduplicated by unique
digest: the result's digests are pairwise distinct, every result element
comes from the merge, and every merged request's digest is represented. -/
theorem stoppedRequests_spec (t : Option (List StoredRequest))
    (m : List (NodeId × List StoredRequest)) :
    ((stoppedRequests t m).map (fun r => r.header.uniqueDigest)).Nodup ∧
    (∀ r ∈ stoppedRequests t m, r ∈ t.getD [] ∨ ∃ e ∈ m, r ∈ e.2) ∧
    (∀ r, (r ∈ t.getD [] ∨ ∃ e ∈ m, r ∈ e.2) →
      ∃ r2 ∈ stoppedRequests t m,
        r2.header.uniqueDigest = r.header.uniqueDigest) := by
  obtain ⟨aP, aQ, aO, aK, aC⟩ := replaceFold_spec (t.getD []) []
    (fun p hp => absurd hp (List.not_mem_nil p)) (by simp)
  obtain ⟨bP, bQ, bO, bK, bC⟩ := mapFold_spec m _ aP aQ
  refine ⟨?_, ?_, ?_⟩
  · unfold stoppedRequests
    have key : ∀ L : List (Digest × StoredRequest),
        (∀ p ∈ L, p.1 = p.2.header.uniqueDigest) →
        (L.map Prod.fst).Nodup →
        ((L.map Prod.snd).map (fun r => r.header.uniqueDigest)).Nodup := by
      intro L hLP hLQ
      rw [List.map_map]
      have he : L.map ((fun r => r.header.uniqueDigest) ∘ Prod.snd)
          = L.map Prod.fst :=
        List.map_congr_left (fun p hp => (hLP p hp).symm)
      rw [he]
      exact hLQ
    exact key _ bP bQ
  · intro r hr
    unfold stoppedRequests at hr
    obtain ⟨p, hp, hpe⟩ := List.mem_map.mp hr
    rcases bO p hp with h | h
    · rcases aO p h with h2 | h2
      · exact absurd h2 (List.not_mem_nil p)
      · exact Or.inl (hpe ▸ h2)
    · obtain ⟨e, he, hpe2⟩ := h
      exact Or.inr ⟨e, he, hpe ▸ hpe2⟩
  · intro r hsrc
    rcases hsrc with h | ⟨e, he, hre⟩
    · obtain ⟨p, hp, hpk⟩ := aC r h
      refine ⟨p.2, List.mem_map_of_mem Prod.snd (bK p hp), ?_⟩
      rw [← bP p (bK p hp)]
      exact hpk
    · obtain ⟨p, hp, hpk⟩ := bC e he r hre
      refine ⟨p.2, List.mem_map_of_mem Prod.snd hp, ?_⟩
      rw [← bP p hp]
      exact hpk

/-- C4: in the Stopping phase, a counted STOP for the next view's sequence
from a fresh sender (i) while our own STOP is unsent (`Stopping(i)`) with
the count exceeding `f` triggers the broadcast of our own STOP — whose
payload is `stopped_requests(None)` over the updated map, i.e. the
deduplicated union of all received stopped requests (merged, in general,
with the locally stopped requests; the third conjunct characterizes the
merge) — moving to `Stopping2(i+1)`; and (ii) after our own STOP
(`Stopping2(i)`) with the count reaching `quorum` installs
`current.next_view()` as the next view and moves to `StoppingData(0)` when
this node leads the next view, else to `Syncing`. -/
theorem stop_phase_progression (st : SyncState) (h : Header)
    (rqs : List StoredRequest) (i : Nat) :
    (st.phase = SyncPhase.stopping i →
      st.stopped.any (fun e => e.1 = h.sender) = false →
      st.tbo.view.f < i + 1 →
      syncProcessMessage st h ⟨st.tbo.view.seq + 1, ViewChangeMessageKind.stop rqs⟩ =
        (SyncStatus.running,
          { st with phase := SyncPhase.stopping2 (i + 1),
                    stopped := st.stopped ++ [(h.sender, rqs)] },
          [SyncOutput.broadcastStop
            ⟨st.tbo.view.seq + 1, ViewChangeMessageKind.stop
              (stoppedRequests none (st.stopped ++ [(h.sender, rqs)]))⟩
            st.tbo.view.members])) ∧
    (st.phase = SyncPhase.stopping2 i →
      st.stopped.any (fun e => e.1 = h.sender) = false →
      st.tbo.view.quorum ≤ i + 1 →
      syncProcessMessage st h ⟨st.tbo.view.seq + 1, ViewChangeMessageKind.stop rqs⟩ =
        (SyncStatus.running,
          { st with
              phase := if st.tbo.view.nextView.leader = st.nodeId
                then SyncPhase.stoppingData 0 else SyncPhase.syncing,
              tbo := { st.tbo with nextView := some st.tbo.view.nextView },
              stopped := [] },
          [SyncOutput.sendStopData st.tbo.view.nextView.seq
            st.tbo.view.nextView.leader])) ∧
    (∀ (t : Option (List StoredRequest)) (mm : List (NodeId × List StoredRequest)),
      ((stoppedRequests t mm).map (fun r => r.header.uniqueDigest)).Nodup ∧
      (∀ r ∈ stoppedRequests t mm, r ∈ t.getD [] ∨ ∃ e ∈ mm, r ∈ e.2) ∧
      (∀ r, (r ∈ t.getD [] ∨ ∃ e ∈ mm, r ∈ e.2) →
        ∃ r2 ∈ stoppedRequests t mm,
          r2.header.uniqueDigest = r.header.uniqueDigest)) := by
  refine ⟨?_, ?_, fun t mm => stoppedRequests_spec t mm⟩
  · intro hphase hfresh hcount
    unfold syncProcessMessage
    rw [hphase]
    unfold syncProcessStopMsg
    dsimp only
    rw [if_neg (by simp)]
    rw [if_neg (by simp [hfresh])]
    rw [if_pos (by simp)]
    rw [if_pos (by omega)]
  · intro hphase hfresh hcount
    unfold syncProcessMessage
    rw [hphase]
    unfold syncProcessStopMsg
    dsimp only
    rw [if_neg (by simp)]
    rw [if_neg (by simp [hfresh])]
    rw [if_neg (by simp)]
    rw [if_pos (by omega)]
    by_cases hl : st.tbo.view.nextView.leader = st.nodeId
    · rw [if_pos hl, if_pos hl]
    · rw [if_neg hl, if_neg hl]

/-- Witness for C4 at a 4-member view (f = 1, quorum 3): a second fresh
STOP while in `Stopping(1)` triggers our own STOP broadcast and
`Stopping2(2)`; a third fresh STOP while in `Stopping2(2)` reaches quorum,
installs the next view and — as node 1 leads view 1 — moves to
`StoppingData(0)` while sending it the STOP-DATA. -/
theorem stop_phase_progression_witness :
    syncProcessMessage
        ⟨0, SyncPhase.stopping 1, VCTboQueue.new ⟨0, [0, 1, 2, 3], 1⟩, [(2, [])]⟩
        ⟨3, 5⟩ ⟨1, ViewChangeMessageKind.stop [⟨⟨9, 77⟩, 0⟩]⟩ =
      (SyncStatus.running,
        ⟨0, SyncPhase.stopping2 2, VCTboQueue.new ⟨0, [0, 1, 2, 3], 1⟩,
          [(2, []), (3, [⟨⟨9, 77⟩, 0⟩])]⟩,
        [SyncOutput.broadcastStop
          ⟨1, ViewChangeMessageKind.stop
            (stoppedRequests none [(2, []), (3, [⟨⟨9, 77⟩, 0⟩])])⟩
          [0, 1, 2, 3]]) ∧
    syncProcessMessage
        ⟨1, SyncPhase.stopping2 2, VCTboQueue.new ⟨0, [0, 1, 2, 3], 1⟩,
          [(2, []), (3, [])]⟩
        ⟨0, 5⟩ ⟨1, ViewChangeMessageKind.stop []⟩ =
      (SyncStatus.running,
        ⟨1, SyncPhase.stoppingData 0,
          { VCTboQueue.new ⟨0, [0, 1, 2, 3], 1⟩ with
              nextView := some (ViewInfo.nextView ⟨0, [0, 1, 2, 3], 1⟩) },
          []⟩,
        [SyncOutput.sendStopData 1 1]) :=
  ⟨(stop_phase_progression
      ⟨0, SyncPhase.stopping 1, VCTboQueue.new ⟨0, [0, 1, 2, 3], 1⟩, [(2, [])]⟩
      ⟨3, 5⟩ [⟨⟨9, 77⟩, 0⟩] 1).1 rfl (by decide) (by decide),
   (stop_phase_progression
      ⟨1, SyncPhase.stopping2 2, VCTboQueue.new ⟨0, [0, 1, 2, 3], 1⟩,
        [(2, []), (3, [])]⟩
      ⟨0, 5⟩ [] 2).2.1 rfl (by decide) (by decide)⟩
